import Mathlib

/-!
Verification of the nbu-export repository: a decoder for a proprietary
mobile-phone backup container that re-exports its contents as files.

The development is a shallow embedding of the C sources (src/utf.c and
src/nbu.c).  Byte streams are lists of natural numbers (each byte taken
modulo 256), the stdio cursor is an explicit integer position threaded
through every operation, and fallible C functions return an Except value.
Machine integers are modelled as Nat with explicit bounds where overflow
matters.  Environmental failures (malloc, mkdir, open on the destination
directory) are modelled as succeeding; failures of reads, seeks and the
format checks of the decoder itself are modelled faithfully.

Seek semantics: following POSIX, fseek with SEEK_SET or SEEK_CUR fails
exactly when the resulting offset would be negative; seeking beyond the
current end of file succeeds, and only a subsequent read fails there.
-/

namespace NbuExport

/-- Error outcomes of the decoder, one constructor per distinct warn/warnx
message class in the C sources.  A short fread and an fread with ferror are
collapsed into one read-failure constructor since both abort identically. -/
inductive Err where
  | eof            -- fread failure (short read)
  | seekFail       -- fseek failure (negative resulting offset)
  | tooLong        -- warnx "UTF-16 string too long"
  | hasFolders     -- warnx "Section unexpectedly contains folders"
  | memoTooLarge   -- warnx "Memo too large"
  | unsupported    -- warnx "Unsupported backup section"
  | invalidSize    -- warnx "Invalid item size"
  | invalidName    -- warnx "Invalid folder name"
  deriving DecidableEq, Repr

instance {e a : Type} [DecidableEq e] [DecidableEq a] : DecidableEq (Except e a) :=
  fun x y =>
    match x, y with
    | .error u, .error v =>
      if h : u = v then .isTrue (by rw [h]) else .isFalse (by simp [h])
    | .ok u, .ok v =>
      if h : u = v then .isTrue (by rw [h]) else .isFalse (by simp [h])
    | .error _, .ok _ => .isFalse (by simp)
    | .ok _, .error _ => .isFalse (by simp)

/-- Value of SIZE_MAX on the 64-bit targets the program is built for. -/
def SIZE_MAX : Nat := 2 ^ 64 - 1

/-- Constant UTF_REPLACEMENT_CHAR from utf.h. -/
def UTF_REPLACEMENT_CHAR : Nat := 0xfffd

/-- Embedding of utf8_encode from utf.c, fill mode: the bytes the C function
stores into buf for a codepoint.  A codepoint above 0x10ffff produces no
bytes (the C function writes nothing). -/
def utf8_encode (cp : Nat) : List Nat :=
  if cp ≤ 0x7f then [cp]
  else if cp ≤ 0x7ff then
    [0xc0 ||| (cp >>> 6 &&& 0x1f), 0x80 ||| (cp &&& 0x3f)]
  else if cp ≤ 0xffff then
    [0xe0 ||| (cp >>> 12 &&& 0x0f), 0x80 ||| (cp >>> 6 &&& 0x3f),
     0x80 ||| (cp &&& 0x3f)]
  else if cp ≤ 0x10ffff then
    [0xf0 ||| (cp >>> 18 &&& 0x07), 0x80 ||| (cp >>> 12 &&& 0x3f),
     0x80 ||| (cp >>> 6 &&& 0x3f), 0x80 ||| (cp &&& 0x3f)]
  else []

/-- Embedding of utf8_encode from utf.c, size mode (buf == NULL): the
returned byte count, 0 for a codepoint above 0x10ffff. -/
def utf8_encode_size (cp : Nat) : Nat :=
  if cp ≤ 0x7f then 1
  else if cp ≤ 0x7ff then 2
  else if cp ≤ 0xffff then 3
  else if cp ≤ 0x10ffff then 4
  else 0

/-- Embedding of utf16_is_surrogate from utf.c. -/
def utf16_is_surrogate (u : Nat) : Bool :=
  (u &&& 0xf800) == 0xd800

/-- Embedding of utf16_is_high_surrogate from utf.c. -/
def utf16_is_high_surrogate (u : Nat) : Bool :=
  (u &&& 0xfc00) == 0xd800

/-- Embedding of utf16_is_low_surrogate from utf.c. -/
def utf16_is_low_surrogate (u : Nat) : Bool :=
  (u &&& 0xfc00) == 0xdc00

/-- Embedding of utf16_decode_surrogate_pair from utf.c. -/
def utf16_decode_surrogate_pair (hi lo : Nat) : Nat :=
  (((hi &&& 0x3ff) <<< 10) ||| (lo &&& 0x3ff)) + 0x10000

/-- Embedding of utf16_decode from utf.c: returns the decoded codepoint
(the out-parameter cp) together with the returned unit count.  Note the C
function returns 0, not 1, for an invalid (unpaired-surrogate) input; its
only caller maps a 0 return to a step of 1. -/
def utf16_decode (u1 u2 : Nat) : Nat × Nat :=
  if utf16_is_surrogate u1 = false then (u1, 1)
  else if utf16_is_high_surrogate u1 = true ∧ utf16_is_low_surrogate u2 = true then
    (utf16_decode_surrogate_pair u1 u2, 2)
  else (UTF_REPLACEMENT_CHAR, 0)

/-- The source backup stream: an immutable byte sequence.  The cursor of
the stdio FILE handle is threaded separately as an Int. -/
structure NbuStream where
  data : List Nat
  deriving DecidableEq, Repr

/-- Size of the stream in bytes. -/
def NbuStream.size (s : NbuStream) : Nat := s.data.length

/-- Byte at an index; bytes of a real file are below 256, which the model
enforces with an explicit reduction modulo 256. -/
def NbuStream.byte (s : NbuStream) (i : Nat) : Nat := s.data.getD i 0 % 256

/-- Embedding of nbu_read: fread of k bytes at cursor p.  It succeeds
exactly when the whole range lies inside the stream; a short read (cursor
at or past end of file, or range overrunning it) fails. -/
def nbu_read (s : NbuStream) (p : Int) (k : Nat) : Except Err (List Nat × Int) :=
  if 0 ≤ p ∧ p.toNat + k ≤ s.size then
    .ok ((List.range k).map (fun j => s.byte (p.toNat + j)), p + k)
  else .error .eof

/-- Value of a little-endian byte list. -/
def le_value (bs : List Nat) : Nat := bs.foldr (fun b acc => b + 256 * acc) 0

/-- Embedding of nbu_read_uint8. -/
def nbu_read_uint8 (s : NbuStream) (p : Int) : Except Err (Nat × Int) := do
  let (bs, p) ← nbu_read s p 1
  pure (le_value bs, p)

/-- Embedding of nbu_read_uint16 (little endian). -/
def nbu_read_uint16 (s : NbuStream) (p : Int) : Except Err (Nat × Int) := do
  let (bs, p) ← nbu_read s p 2
  pure (le_value bs, p)

/-- Embedding of nbu_read_uint32 (little endian). -/
def nbu_read_uint32 (s : NbuStream) (p : Int) : Except Err (Nat × Int) := do
  let (bs, p) ← nbu_read s p 4
  pure (le_value bs, p)

/-- Embedding of nbu_read_uint64 (little endian). -/
def nbu_read_uint64 (s : NbuStream) (p : Int) : Except Err (Nat × Int) := do
  let (bs, p) ← nbu_read s p 8
  pure (le_value bs, p)

/-- Embedding of nbu_seek with SEEK_SET: fseek fails exactly when the
target offset is negative; seeking past end of file succeeds. -/
def nbu_seek_set (target : Int) : Except Err Int :=
  if target < 0 then .error .seekFail else .ok target

/-- Embedding of nbu_seek with SEEK_CUR. -/
def nbu_seek_cur (p off : Int) : Except Err Int :=
  if p + off < 0 then .error .seekFail else .ok (p + off)

/-- Embedding of the loop of nbu_read_utf16_n: reads len 16-bit units and
appends the terminating 0 the C code stores at index len. -/
def nbu_read_utf16_loop (s : NbuStream) (p : Int) : Nat → Except Err (List Nat × Int)
  | 0 => .ok ([0], p)
  | n + 1 => do
    let (u, p) ← nbu_read_uint16 s p
    let (us, p) ← nbu_read_utf16_loop s p n
    pure (u :: us, p)

/-- Embedding of nbu_read_utf16_n: the guard compares the requested unit
count against SIZE_MAX (the len == SIZE_MAX check in the C source), then
reads that many units. -/
def nbu_read_utf16_n (s : NbuStream) (p : Int) (len : Nat) :
    Except Err (List Nat × Int) :=
  if len = SIZE_MAX then .error .tooLong
  else nbu_read_utf16_loop s p len

/-- Embedding of nbu_read_utf16: a 16-bit unit count followed by that many
units. -/
def nbu_read_utf16 (s : NbuStream) (p : Int) : Except Err (List Nat × Int) := do
  let (len, p) ← nbu_read_uint16 s p
  nbu_read_utf16_n s p len

/-- Wrapping subtraction on size_t values (64-bit), used where the C code
subtracts size_t quantities. -/
def sub64 (a b : Nat) : Nat := (a + 2 ^ 64 - b % 2 ^ 64) % 2 ^ 64

/-- Reference UTF-8 transcoding of a NUL-terminated UTF-16 sequence: the
concatenated utf8_encode output of the codepoints produced by the decode
loop of utf16_convert_string_to_utf8, with no buffer bound.  The input list
is the units before the terminator; a 0 unit inside the list terminates the
conversion exactly as the C loop condition does.  For the last unit before
the terminator the C loop reads the terminator itself as the second unit of
the decode; the terminator is not a low surrogate, so that step always
consumes one unit and the loop then stops at the terminator. -/
def utf16_to_utf8 : List Nat → List Nat
  | [] => []
  | [u1] =>
    if u1 = 0 then [] else utf8_encode (utf16_decode u1 0).1
  | u1 :: u2 :: rest =>
    if u1 = 0 then []
    else
      let d := utf16_decode u1 u2
      let n := if d.2 = 0 then 1 else d.2
      if n = 2 then utf8_encode d.1 ++ utf16_to_utf8 rest
      else utf8_encode d.1 ++ utf16_to_utf8 (u2 :: rest)

/-- Loop of utf16_convert_string_to_utf8 in size mode (buf == NULL), with
the running buflen accumulator: per unit, decode, map a 0 step to 1, add
the encoded size unless it would push buflen past SIZE_MAX, in which case
the result saturates to SIZE_MAX. -/
def utf16_convert_size_loop (buflen : Nat) : List Nat → Nat
  | [] => buflen
  | [u1] =>
    if u1 = 0 then buflen
    else
      let seqlen := utf8_encode_size (utf16_decode u1 0).1
      if seqlen > SIZE_MAX - buflen then SIZE_MAX
      else buflen + seqlen
  | u1 :: u2 :: rest =>
    if u1 = 0 then buflen
    else
      let d := utf16_decode u1 u2
      let n := if d.2 = 0 then 1 else d.2
      let seqlen := utf8_encode_size d.1
      if seqlen > SIZE_MAX - buflen then SIZE_MAX
      else if n = 2 then utf16_convert_size_loop (buflen + seqlen) rest
      else utf16_convert_size_loop (buflen + seqlen) (u2 :: rest)

/-- Embedding of utf16_convert_string_to_utf8 with buf == NULL: the
size-only pass. -/
def utf16_convert_string_to_utf8_size (ws : List Nat) : Nat :=
  utf16_convert_size_loop 0 ws

/-- Loop of utf16_convert_string_to_utf8 in fill mode (buf != NULL):
returns the bytes stored into the buffer together with the final buflen.
The space check mirrors the C code in size_t arithmetic: when fewer than 4
bytes remain before the reserved terminator slot and the next sequence does
not fit, the loop stops. -/
def utf16_convert_fill_loop (bufsize : Nat) (buflen : Nat) :
    List Nat → List Nat × Nat
  | [] => ([], buflen)
  | [u1] =>
    if u1 = 0 then ([], buflen)
    else
      let d := utf16_decode u1 0
      if sub64 (sub64 bufsize buflen) 1 < 4 ∧
          utf8_encode_size d.1 > sub64 (sub64 bufsize buflen) 1 then
        ([], buflen)
      else
        let bs := utf8_encode d.1
        (bs, buflen + bs.length)
  | u1 :: u2 :: rest =>
    if u1 = 0 then ([], buflen)
    else
      let d := utf16_decode u1 u2
      let n := if d.2 = 0 then 1 else d.2
      if sub64 (sub64 bufsize buflen) 1 < 4 ∧
          utf8_encode_size d.1 > sub64 (sub64 bufsize buflen) 1 then
        ([], buflen)
      else
        let bs := utf8_encode d.1
        if n = 2 then
          let r := utf16_convert_fill_loop bufsize (buflen + bs.length) rest
          (bs ++ r.1, r.2)
        else
          let r := utf16_convert_fill_loop bufsize (buflen + bs.length) (u2 :: rest)
          (bs ++ r.1, r.2)

/-- Embedding of utf16_convert_string_to_utf8 with buf != NULL: the fill
pass.  With a zero bufsize the C function returns 0 immediately and writes
nothing; otherwise it runs the loop and finally stores a terminating 0 at
index buflen (the terminator is not part of the returned content). -/
def utf16_convert_string_to_utf8_fill (bufsize : Nat) (ws : List Nat) :
    List Nat × Nat :=
  if bufsize = 0 then ([], 0)
  else utf16_convert_fill_loop bufsize 0 ws

/-- Embedding of struct nbu_item: a byte range in the source stream, with
the position as reported by ftell (a C long) and the length as a uint32
value. -/
structure nbu_item where
  pos : Int
  len : Nat
  deriving DecidableEq, Repr

/-- Embedding of struct nbu_folder: a UTF-16 name (as returned by
nbu_read_utf16, terminator included) and an item list. -/
structure nbu_folder where
  name : List Nat
  items : List nbu_item
  deriving DecidableEq, Repr

/-- Embedding of struct nbu_ctx (the collection fields populated by the
section handlers); a missing Option models the NULL pointer of a section
kind never seen. -/
structure nbu_ctx where
  bookmarks : Option (List nbu_folder)
  messages : Option (List nbu_folder)
  mmses : Option (List nbu_folder)
  calendar : Option (List nbu_item)
  contacts : Option (List nbu_item)
  memos : Option (List nbu_item)
  deriving DecidableEq, Repr

/-- The context as calloc leaves it in nbu_open: every collection NULL. -/
def nbu_ctx_empty : nbu_ctx := ⟨none, none, none, none, none, none⟩

/-- Loop body of nbu_read_vcards: per item, one 32-bit test word, a second
test word only when the first equals 0x10 (both checks are debug prints
only), then a 32-bit length, an item recorded at the cursor, and a relative
skip over the payload. -/
def nbu_read_vcards_loop (s : NbuStream) : Nat → Int → Except Err (List nbu_item × Int)
  | 0, p => .ok ([], p)
  | n + 1, p => do
    let (test, p) ← nbu_read_uint32 s p
    let p ←
      (if test ≠ 0x10 then pure p
       else do
         let (_test2, p) ← nbu_read_uint32 s p
         pure p)
    let (len, p) ← nbu_read_uint32 s p
    let pos := p
    let p ← nbu_seek_cur p (len : Int)
    let (items, p) ← nbu_read_vcards_loop s n p
    pure (⟨pos, len⟩ :: items, p)

/-- Embedding of nbu_read_vcards: a 32-bit item count followed by that many
per-item records. -/
def nbu_read_vcards (s : NbuStream) (p : Int) : Except Err (List nbu_item × Int) := do
  let (nitems, p) ← nbu_read_uint32 s p
  nbu_read_vcards_loop s nitems p

/-- Embedding of nbu_read_vcard_folder. -/
def nbu_read_vcard_folder (s : NbuStream) (folder_pos : Nat) :
    Except Err (nbu_folder × Int) := do
  let p ← nbu_seek_set ((folder_pos : Int) + 4)
  let (name, p) ← nbu_read_utf16 s p
  let (items, p) ← nbu_read_vcards s p
  pure (⟨name, items⟩, p)

/-- Embedding of nbu_read_vcard_section (calendar and contacts): item and
folder counts at the cursor, a fatal error when the folder count is not
zero, then the vcard table at section_pos + 44, finally restoring the saved
cursor. -/
def nbu_read_vcard_section (s : NbuStream) (section_pos : Nat) (p : Int) :
    Except Err (List nbu_item × Int) := do
  let (_nitems, p) ← nbu_read_uint32 s p
  let (nfolders, p) ← nbu_read_uint32 s p
  if nfolders ≠ 0 then Except.error Err.hasFolders
  else do
    let pos := p
    let p ← nbu_seek_set ((section_pos : Int) + 44)
    let (items, _) ← nbu_read_vcards s p
    let p ← nbu_seek_set pos
    pure (items, p)

/-- Loop of nbu_read_vcard_folder_section over the folder entries. -/
def nbu_read_vcard_folders_loop (s : NbuStream) : Nat → Int → Except Err (List nbu_folder × Int)
  | 0, p => .ok ([], p)
  | n + 1, p => do
    let p ← nbu_seek_cur p 4
    let (folder_pos, p) ← nbu_read_uint64 s p
    let pos := p
    let (folder, _) ← nbu_read_vcard_folder s folder_pos
    let p ← nbu_seek_set pos
    let (folders, p) ← nbu_read_vcard_folders_loop s n p
    pure (folder :: folders, p)

/-- Embedding of nbu_read_vcard_folder_section (bookmarks). -/
def nbu_read_vcard_folder_section (s : NbuStream) (p : Int) :
    Except Err (List nbu_folder × Int) := do
  let (_nitems, p) ← nbu_read_uint32 s p
  let (nfolders, p) ← nbu_read_uint32 s p
  nbu_read_vcard_folders_loop s nfolders p

/-- Embedding of nbu_read_group_folder: name and item count only, content
unparsed (TODO in the C source). -/
def nbu_read_group_folder (s : NbuStream) (folder_pos : Nat) :
    Except Err (nbu_folder × Int) := do
  let p ← nbu_seek_set ((folder_pos : Int) + 4)
  let (name, p) ← nbu_read_utf16 s p
  let (_nitems, p) ← nbu_read_uint32 s p
  pure (⟨name, []⟩, p)

/-- Per-message loop of nbu_read_message_folder: skip 8, read a 32-bit
length, record an item at the cursor, skip the payload. -/
def nbu_read_message_items_loop (s : NbuStream) : Nat → Int → Except Err (List nbu_item × Int)
  | 0, p => .ok ([], p)
  | n + 1, p => do
    let p ← nbu_seek_cur p 8
    let (len, p) ← nbu_read_uint32 s p
    let pos := p
    let p ← nbu_seek_cur p (len : Int)
    let (items, p) ← nbu_read_message_items_loop s n p
    pure (⟨pos, len⟩ :: items, p)

/-- Embedding of nbu_read_message_folder. -/
def nbu_read_message_folder (s : NbuStream) (folder_pos : Nat) :
    Except Err (nbu_folder × Int) := do
  let p ← nbu_seek_set ((folder_pos : Int) + 4)
  let (name, p) ← nbu_read_utf16 s p
  let (nitems, p) ← nbu_read_uint32 s p
  let (items, p) ← nbu_read_message_items_loop s nitems p
  pure (⟨name, items⟩, p)

/-- Inner loop of nbu_read_mms_folder over the unknown per-message strings:
skip 8, read one length-prefixed UTF-16 string, discard it. -/
def nbu_read_mms_strings_loop (s : NbuStream) : Nat → Int → Except Err Int
  | 0, p => .ok p
  | j + 1, p => do
    let p ← nbu_seek_cur p 8
    let (_utf16, p) ← nbu_read_utf16 s p
    nbu_read_mms_strings_loop s j p

/-- Per-message loop of nbu_read_mms_folder: skip 8, an 8-bit sub-record
count, that many discarded strings, skip 20, then the 32-bit length, item
record and payload skip. -/
def nbu_read_mms_items_loop (s : NbuStream) : Nat → Int → Except Err (List nbu_item × Int)
  | 0, p => .ok ([], p)
  | n + 1, p => do
    let p ← nbu_seek_cur p 8
    let (cnt, p) ← nbu_read_uint8 s p
    let p ← nbu_read_mms_strings_loop s cnt p
    let p ← nbu_seek_cur p 20
    let (len, p) ← nbu_read_uint32 s p
    let pos := p
    let p ← nbu_seek_cur p (len : Int)
    let (items, p) ← nbu_read_mms_items_loop s n p
    pure (⟨pos, len⟩ :: items, p)

/-- Embedding of nbu_read_mms_folder. -/
def nbu_read_mms_folder (s : NbuStream) (folder_pos : Nat) :
    Except Err (nbu_folder × Int) := do
  let p ← nbu_seek_set ((folder_pos : Int) + 4)
  let (name, p) ← nbu_read_utf16 s p
  let (nitems, p) ← nbu_read_uint32 s p
  let (items, p) ← nbu_read_mms_items_loop s nitems p
  pure (⟨name, items⟩, p)

/-- Loop of nbu_read_advanced_settings_section: the folder entries are
walked (id skip, 64-bit position, cursor save/restore) but their content is
unparsed (TODO in the C source). -/
def nbu_read_advanced_settings_loop (s : NbuStream) : Nat → Int → Except Err Int
  | 0, p => .ok p
  | n + 1, p => do
    let p ← nbu_seek_cur p 4
    let (_folder_pos, p) ← nbu_read_uint64 s p
    let pos := p
    let p ← nbu_seek_set pos
    nbu_read_advanced_settings_loop s n p

/-- Embedding of nbu_read_advanced_settings_section. -/
def nbu_read_advanced_settings_section (s : NbuStream) (ctx : nbu_ctx)
    (_section_pos : Nat) (p : Int) : Except Err (nbu_ctx × Int) := do
  let (_n, p) ← nbu_read_uint32 s p
  let (nfolders, p) ← nbu_read_uint32 s p
  let p ← nbu_read_advanced_settings_loop s nfolders p
  pure (ctx, p)

/-- Embedding of nbu_read_bookmarks_section. -/
def nbu_read_bookmarks_section (s : NbuStream) (ctx : nbu_ctx)
    (_section_pos : Nat) (p : Int) : Except Err (nbu_ctx × Int) := do
  let (folders, p) ← nbu_read_vcard_folder_section s p
  pure ({ ctx with bookmarks := some folders }, p)

/-- Embedding of nbu_read_calendar_section. -/
def nbu_read_calendar_section (s : NbuStream) (ctx : nbu_ctx)
    (section_pos : Nat) (p : Int) : Except Err (nbu_ctx × Int) := do
  let (items, p) ← nbu_read_vcard_section s section_pos p
  pure ({ ctx with calendar := some items }, p)

/-- Embedding of nbu_read_contacts_section. -/
def nbu_read_contacts_section (s : NbuStream) (ctx : nbu_ctx)
    (section_pos : Nat) (p : Int) : Except Err (nbu_ctx × Int) := do
  let (items, p) ← nbu_read_vcard_section s section_pos p
  pure ({ ctx with contacts := some items }, p)

/-- Loop of nbu_read_groups_section: each group folder is parsed and then
discarded (TODO in the C source). -/
def nbu_read_groups_loop (s : NbuStream) : Nat → Int → Except Err Int
  | 0, p => .ok p
  | n + 1, p => do
    let p ← nbu_seek_cur p 4
    let (folder_pos, p) ← nbu_read_uint64 s p
    let pos := p
    let (_folder, _) ← nbu_read_group_folder s folder_pos
    let p ← nbu_seek_set pos
    nbu_read_groups_loop s n p

/-- Embedding of nbu_read_groups_section. -/
def nbu_read_groups_section (s : NbuStream) (ctx : nbu_ctx)
    (_section_pos : Nat) (p : Int) : Except Err (nbu_ctx × Int) := do
  let (_n, p) ← nbu_read_uint32 s p
  let (ngroups, p) ← nbu_read_uint32 s p
  let p ← nbu_read_groups_loop s ngroups p
  pure (ctx, p)

/-- Per-memo loop of nbu_read_memos_section: skip 4, read a 16-bit length
in UTF-16 code units, reject lengths above UINT16_MAX / 2, double to a byte
length, record an item at the cursor, skip the payload. -/
def nbu_read_memos_loop (s : NbuStream) : Nat → Int → Except Err (List nbu_item × Int)
  | 0, p => .ok ([], p)
  | n + 1, p => do
    let (len, p) ← (do
      let p ← nbu_seek_cur p 4
      nbu_read_uint16 s p)
    if len > 65535 / 2 then Except.error Err.memoTooLarge
    else do
      let len := len * 2
      let pos := p
      let p ← nbu_seek_cur p (len : Int)
      let (items, p) ← nbu_read_memos_loop s n p
      pure (⟨pos, len⟩ :: items, p)

/-- Embedding of nbu_read_memos_section: the memo count at the cursor, a
saved return cursor of count-position plus 4, the per-memo loop starting at
section_pos + 48, and the final restore. -/
def nbu_read_memos_section (s : NbuStream) (ctx : nbu_ctx)
    (section_pos : Nat) (p : Int) : Except Err (nbu_ctx × Int) := do
  let (nmemos, p) ← nbu_read_uint32 s p
  let pos := p + 4
  let p ← nbu_seek_set ((section_pos : Int) + 48)
  let (items, _) ← nbu_read_memos_loop s nmemos p
  let p ← nbu_seek_set pos
  pure ({ ctx with memos := some items }, p)

/-- Loop of nbu_read_messages_section over the folder entries. -/
def nbu_read_message_folders_loop (s : NbuStream) : Nat → Int → Except Err (List nbu_folder × Int)
  | 0, p => .ok ([], p)
  | n + 1, p => do
    let p ← nbu_seek_cur p 4
    let (folder_pos, p) ← nbu_read_uint64 s p
    let pos := p
    let (folder, _) ← nbu_read_message_folder s folder_pos
    let p ← nbu_seek_set pos
    let (folders, p) ← nbu_read_message_folders_loop s n p
    pure (folder :: folders, p)

/-- Embedding of nbu_read_messages_section. -/
def nbu_read_messages_section (s : NbuStream) (ctx : nbu_ctx)
    (_section_pos : Nat) (p : Int) : Except Err (nbu_ctx × Int) := do
  let (_nmessages, p) ← nbu_read_uint32 s p
  let (nfolders, p) ← nbu_read_uint32 s p
  let (folders, p) ← nbu_read_message_folders_loop s nfolders p
  pure ({ ctx with messages := some folders }, p)

/-- Loop of nbu_read_mms_section over the folder entries. -/
def nbu_read_mms_folders_loop (s : NbuStream) : Nat → Int → Except Err (List nbu_folder × Int)
  | 0, p => .ok ([], p)
  | n + 1, p => do
    let p ← nbu_seek_cur p 4
    let (folder_pos, p) ← nbu_read_uint64 s p
    let pos := p
    let (folder, _) ← nbu_read_mms_folder s folder_pos
    let p ← nbu_seek_set pos
    let (folders, p) ← nbu_read_mms_folders_loop s n p
    pure (folder :: folders, p)

/-- Embedding of nbu_read_mms_section. -/
def nbu_read_mms_section (s : NbuStream) (ctx : nbu_ctx)
    (_section_pos : Nat) (p : Int) : Except Err (nbu_ctx × Int) := do
  let (_nmessages, p) ← nbu_read_uint32 s p
  let (nfolders, p) ← nbu_read_uint32 s p
  let (folders, p) ← nbu_read_mms_folders_loop s nfolders p
  pure ({ ctx with mmses := some folders }, p)

/-- The eight 16-byte section identifiers of the static nbu_sections table,
in source order. -/
def nbu_guid_calendar : List Nat :=
  [0x16, 0xcd, 0xf8, 0xe8, 0x23, 0x5e, 0x5a, 0x4e,
   0xb7, 0x35, 0xdd, 0xdf, 0xf1, 0x48, 0x12, 0x22]

def nbu_guid_groups : List Nat :=
  [0x1f, 0x0e, 0x58, 0x65, 0xa1, 0x9f, 0x3c, 0x49,
   0x9e, 0x23, 0x0e, 0x25, 0xeb, 0x24, 0x0f, 0xe1]

def nbu_guid_advanced_settings : List Nat :=
  [0x2d, 0xf5, 0x68, 0x6b, 0x1f, 0x4b, 0x22, 0x4a,
   0x92, 0x83, 0x1b, 0x06, 0xc3, 0xc3, 0x9a, 0x35]

def nbu_guid_mms : List Nat :=
  [0x47, 0x1d, 0xd4, 0x65, 0xef, 0xe3, 0x32, 0x40,
   0x8c, 0x77, 0x64, 0xca, 0xa3, 0x83, 0xaa, 0x33]

def nbu_guid_memos : List Nat :=
  [0x5c, 0x62, 0x97, 0x3b, 0xdc, 0xa7, 0x54, 0x41,
   0xa1, 0xc3, 0x05, 0x9d, 0xe3, 0x24, 0x68, 0x08]

def nbu_guid_messages : List Nat :=
  [0x61, 0x7a, 0xef, 0xd1, 0xaa, 0xbe, 0xa1, 0x49,
   0x9d, 0x9d, 0x15, 0x5a, 0xbb, 0x4c, 0xeb, 0x8e]

def nbu_guid_bookmarks : List Nat :=
  [0x7f, 0x77, 0x90, 0x56, 0x31, 0xf9, 0x57, 0x49,
   0x8d, 0x96, 0xee, 0x44, 0x5d, 0xbe, 0xbc, 0x5a]

def nbu_guid_contacts : List Nat :=
  [0xef, 0xd4, 0x2e, 0xd0, 0xa3, 0x51, 0x38, 0x47,
   0x9d, 0xd7, 0x30, 0x5c, 0x7a, 0xf0, 0x68, 0xd3]

/-- The static identifier-to-handler table nbu_sections, in source order. -/
def nbu_sections (s : NbuStream) :
    List (List Nat × (nbu_ctx → Nat → Int → Except Err (nbu_ctx × Int))) :=
  [(nbu_guid_calendar, nbu_read_calendar_section s),
   (nbu_guid_groups, nbu_read_groups_section s),
   (nbu_guid_advanced_settings, nbu_read_advanced_settings_section s),
   (nbu_guid_mms, nbu_read_mms_section s),
   (nbu_guid_memos, nbu_read_memos_section s),
   (nbu_guid_messages, nbu_read_messages_section s),
   (nbu_guid_bookmarks, nbu_read_bookmarks_section s),
   (nbu_guid_contacts, nbu_read_contacts_section s)]

/-- Embedding of nbu_read_section: linear scan of the table by exact
16-byte identifier equality; the matched handler is called with the
declared section position as its argument, at the current cursor; no match
is a fatal error. -/
def nbu_read_section (s : NbuStream) (ctx : nbu_ctx) (guid : List Nat)
    (pos : Nat) (p : Int) : Except Err (nbu_ctx × Int) :=
  match (nbu_sections s).find? (fun e => e.1 == guid) with
  | some e => e.2 ctx pos p
  | none => Except.error Err.unsupported

/-- Loop of nbu_read_sections over the section table entries: a 16-byte
identifier, a 64-bit declared position, an 8-byte skip over the length
field, then the dispatch.  The cursor handed to the handler is the one
right after the entry, and the cursor left behind by the handler is the one
the next entry is read from. -/
def nbu_read_sections_loop (s : NbuStream) : Nat → nbu_ctx → Int → Except Err (nbu_ctx × Int)
  | 0, ctx, p => .ok (ctx, p)
  | n + 1, ctx, p => do
    let (guid, p) ← nbu_read s p 16
    let (pos, p) ← nbu_read_uint64 s p
    let p ← nbu_seek_cur p 8
    let (ctx, p) ← nbu_read_section s ctx guid pos p
    nbu_read_sections_loop s n ctx p

/-- Embedding of nbu_read_sections. -/
def nbu_read_sections (s : NbuStream) (ctx : nbu_ctx) (p : Int) :
    Except Err (nbu_ctx × Int) := do
  let (nsections, p) ← nbu_read_uint32 s p
  nbu_read_sections_loop s nsections ctx p

/-- Modelled from the spec (section 4.2): a dispatcher that, for each
entry, records the cursor immediately following the entry, seeks to the
declared absolute section position before invoking the matched handler, and
restores the recorded cursor before the next entry.  This definition is the
comparison point for the claim about the dispatcher in nbu_read_sections;
the code in src/nbu.c performs none of these cursor manipulations. -/
def nbu_read_sections_spec_loop (s : NbuStream) : Nat → nbu_ctx → Int → Except Err (nbu_ctx × Int)
  | 0, ctx, p => .ok (ctx, p)
  | n + 1, ctx, p => do
    let (guid, p) ← nbu_read s p 16
    let (pos, p) ← nbu_read_uint64 s p
    let p ← nbu_seek_cur p 8
    let cursor := p
    let p ← nbu_seek_set (pos : Int)
    let (ctx, _) ← nbu_read_section s ctx guid pos p
    let p ← nbu_seek_set cursor
    nbu_read_sections_spec_loop s n ctx p

/-- Modelled from the spec (section 4.2): nbu_read_sections with the
save/seek/restore dispatcher described there. -/
def nbu_read_sections_specModel (s : NbuStream) (ctx : nbu_ctx) (p : Int) :
    Except Err (nbu_ctx × Int) := do
  let (nsections, p) ← nbu_read_uint32 s p
  nbu_read_sections_spec_loop s nsections ctx p

/-- Bound claimed of every recorded item: the position, which the handlers
obtain from nbu_tell immediately after a successful read, is non-negative
and no larger than the stream size. -/
def item_ok (s : NbuStream) (it : nbu_item) : Prop :=
  0 ≤ it.pos ∧ it.pos ≤ (s.size : Int)

instance (s : NbuStream) (it : nbu_item) : Decidable (item_ok s it) := by
  unfold item_ok
  infer_instance

/-- Bound for every folder: all its items are in bounds. -/
def folder_ok (s : NbuStream) (f : nbu_folder) : Prop :=
  ∀ it ∈ f.items, item_ok s it

/-- Bound lifted to an optional collection. -/
def olist_ok {α : Type} (P : α → Prop) : Option (List α) → Prop
  | none => True
  | some xs => ∀ x ∈ xs, P x

/-- Bound for the whole context: every item of every collection is in
bounds. -/
def ctx_ok (s : NbuStream) (ctx : nbu_ctx) : Prop :=
  olist_ok (folder_ok s) ctx.bookmarks ∧ olist_ok (folder_ok s) ctx.messages ∧
  olist_ok (folder_ok s) ctx.mmses ∧ olist_ok (item_ok s) ctx.calendar ∧
  olist_ok (item_ok s) ctx.contacts ∧ olist_ok (item_ok s) ctx.memos

/-- A 54-byte synthetic backup section table: one entry (count 1) whose
identifier is the memos section identifier, with declared position 0; the
memo count that the handler reads at the cursor following the entry (offset
36) is 0, while the 32-bit word at the declared position 0 is 1. -/
def nbu_stream_c1 : NbuStream :=
  ⟨[1, 0, 0, 0] ++ nbu_guid_memos ++ List.replicate 16 0 ++ [0, 0, 0, 0] ++
    List.replicate 12 0 ++ [1, 0]⟩

/-- A 54-byte synthetic backup: one memos section entry with declared
position 0 and memo count 1 at the post-entry cursor; the single memo
declares 100 UTF-16 units (200 bytes) at position 54, overrunning the
54-byte stream. -/
def nbu_stream_c2 : NbuStream :=
  ⟨[1, 0, 0, 0] ++ nbu_guid_memos ++ List.replicate 16 0 ++ [1, 0, 0, 0] ++
    List.replicate 12 0 ++ [100, 0]⟩

/-- An 8-byte fragment for exercising the vcard item loop: the first
32-bit word equals 0x10 and the second is an arbitrary non-matching
value. -/
def nbu_stream_c7 : NbuStream := ⟨[16, 0, 0, 0, 9, 9, 9, 9]⟩

/-- An 8-byte fragment for exercising the memos section: a count word,
then a 16-bit unit count of 100, then the unit count 0xffff. -/
def nbu_stream_c8 : NbuStream := ⟨[9, 0, 0, 0, 100, 0, 0xff, 0xff]⟩

/-- Names of the files the export engine creates.  The path formatting
(snprintf and asprintf in the C source) is abstracted into constructors;
the message constructor carries the sanitized UTF-8 folder base name. -/
inductive nbu_file_name where
  | calendar
  | contacts
  | memo (i : Nat)
  | message (base : List Nat)
  deriving DecidableEq, Repr

/-- Embedding of nbu_convert_utf16_to_utf8: the size pass, the SIZE_MAX
guard, then the fill pass into a buffer of size + 1 bytes (malloc modelled
as succeeding). -/
def nbu_convert_utf16_to_utf8 (ws : List Nat) : Except Err (List Nat) :=
  let size := utf16_convert_string_to_utf8_size ws
  if size = SIZE_MAX then .error .tooLong
  else .ok (utf16_convert_string_to_utf8_fill (size + 1) ws).1

/-- C string content of a byte buffer: the bytes before the first NUL, as
strlen and the string functions of the C library see it. -/
def strlen_trunc (bs : List Nat) : List Nat :=
  bs.takeWhile (fun b => b != 0)

/-- Embedding of nbu_export_item_to_fd: seek to the item position, read its
byte range, write it; the returned list is the bytes written to the file
descriptor (malloc and write modelled as succeeding). -/
def nbu_export_item_to_fd (s : NbuStream) (it : nbu_item) :
    Except Err (List Nat) := do
  let p ← nbu_seek_set it.pos
  let (buf, _) ← nbu_read s p it.len
  pure buf

/-- Embedding of nbu_export_utf16_item_to_fd: the odd-length sanity check
comes first, before any seek, read or write; then the byte length is halved
to a unit count, the units are read, transcoded to UTF-8 and written for
strlen bytes. -/
def nbu_export_utf16_item_to_fd (s : NbuStream) (it : nbu_item) :
    Except Err (List Nat) :=
  if it.len % 2 ≠ 0 then .error .invalidSize
  else do
    let len := it.len / 2
    let p ← nbu_seek_set it.pos
    let (utf16, _) ← nbu_read_utf16_n s p len
    let utf8 ← nbu_convert_utf16_to_utf8 utf16
    pure (strlen_trunc utf8)

/-- Item loop of nbu_export_item_list: concatenated contents written to the
one open file descriptor, stopping at the first failing item (whose error
is reported). -/
def nbu_export_items_to_fd (s : NbuStream) : List nbu_item → List Nat × Option Err
  | [] => ([], none)
  | it :: rest =>
    match nbu_export_item_to_fd s it with
    | .error e => ([], some e)
    | .ok bs =>
      let r := nbu_export_items_to_fd s rest
      (bs ++ r.1, r.2)

/-- Embedding of nbu_export_item_list (calendar and contacts): an absent or
empty list produces no file at all; otherwise one file is created (openat
modelled as succeeding) holding the concatenated item contents.  The Int is
the C return value, 0 or -1. -/
def nbu_export_item_list (s : NbuStream) (olist : Option (List nbu_item))
    (name : nbu_file_name) : Int × List (nbu_file_name × List Nat) :=
  match olist with
  | none => (0, [])
  | some [] => (0, [])
  | some items =>
    let r := nbu_export_items_to_fd s items
    (match r.2 with | some _ => -1 | none => 0, [(name, r.1)])

/-- Embedding of nbu_export_calendar. -/
def nbu_export_calendar (s : NbuStream) (ctx : nbu_ctx) :
    Int × List (nbu_file_name × List Nat) :=
  nbu_export_item_list s ctx.calendar .calendar

/-- Embedding of nbu_export_contacts. -/
def nbu_export_contacts (s : NbuStream) (ctx : nbu_ctx) :
    Int × List (nbu_file_name × List Nat) :=
  nbu_export_item_list s ctx.contacts .contacts

/-- Per-memo loop of nbu_export_memos: each memo gets its own numbered
file (created by openat before the export, hence present but empty when the
item export fails); a failing memo sets the -1 return value but the loop
continues with the remaining memos. -/
def nbu_export_memos_loop (s : NbuStream) (i : Nat) :
    List nbu_item → Int × List (nbu_file_name × List Nat)
  | [] => (0, [])
  | it :: rest =>
    let cur : Int × List Nat :=
      match nbu_export_utf16_item_to_fd s it with
      | .error _ => (-1, [])
      | .ok bs => (0, bs)
    let r := nbu_export_memos_loop s (i + 1) rest
    (if cur.1 = -1 then -1 else r.1, (.memo i, cur.2) :: r.2)

/-- Embedding of nbu_export_memos: nothing for an absent or empty list;
otherwise the memos directory is created (mkdirat modelled as succeeding)
and the per-memo loop runs with 1-based numbering. -/
def nbu_export_memos (s : NbuStream) (ctx : nbu_ctx) :
    Int × List (nbu_file_name × List Nat) :=
  match ctx.memos with
  | none => (0, [])
  | some [] => (0, [])
  | some items => nbu_export_memos_loop s 1 items

/-- Item loop of nbu_export_message_folder: concatenated transcoded
contents written to the folder file, stopping at the first failing item. -/
def nbu_export_utf16_items_to_fd (s : NbuStream) :
    List nbu_item → List Nat × Option Err
  | [] => ([], none)
  | it :: rest =>
    match nbu_export_utf16_item_to_fd s it with
    | .error e => ([], some e)
    | .ok bs =>
      let r := nbu_export_utf16_items_to_fd s rest
      (bs ++ r.1, r.2)

/-- Embedding of nbu_export_message_folder: the folder name is transcoded
to UTF-8 and rejected (failing this folder only, before any file is
created) when it is empty, contains a slash, or equals "." or ".."; a
valid name yields one .vmg file holding the concatenated transcoded
items. -/
def nbu_export_message_folder (s : NbuStream) (f : nbu_folder) :
    Int × List (nbu_file_name × List Nat) :=
  match nbu_convert_utf16_to_utf8 f.name with
  | .error _ => (-1, [])
  | .ok buf =>
    let base := strlen_trunc buf
    if base = [] ∨ 47 ∈ base ∨ base = [46] ∨ base = [46, 46] then (-1, [])
    else
      let r := nbu_export_utf16_items_to_fd s f.items
      (match r.2 with | some _ => -1 | none => 0, [(.message base, r.1)])

/-- Folder loop of nbu_export_messages: a failing folder sets the -1
return value but the loop continues with the remaining folders. -/
def nbu_export_message_folders_loop (s : NbuStream) :
    List nbu_folder → Int × List (nbu_file_name × List Nat)
  | [] => (0, [])
  | f :: rest =>
    let cur := nbu_export_message_folder s f
    let r := nbu_export_message_folders_loop s rest
    (if cur.1 = -1 then -1 else r.1, cur.2 ++ r.2)

/-- Embedding of nbu_export_messages. -/
def nbu_export_messages (s : NbuStream) (ctx : nbu_ctx) :
    Int × List (nbu_file_name × List Nat) :=
  match ctx.messages with
  | none => (0, [])
  | some [] => (0, [])
  | some folders => nbu_export_message_folders_loop s folders

/-- Embedding of nbu_export: the destination directory is created and
opened (modelled as succeeding), then the four categories are exported in
sequence, each failure recorded in the accumulated return value without
stopping the remaining categories.  The bookmarks and mmses collections of
the context are not consulted. -/
def nbu_export (s : NbuStream) (ctx : nbu_ctx) :
    Int × List (nbu_file_name × List Nat) :=
  let r1 := nbu_export_calendar s ctx
  let r2 := nbu_export_contacts s ctx
  let r3 := nbu_export_memos s ctx
  let r4 := nbu_export_messages s ctx
  (if r1.1 = -1 ∨ r2.1 = -1 ∨ r3.1 = -1 ∨ r4.1 = -1 then -1 else 0,
   r1.2 ++ r2.2 ++ r3.2 ++ r4.2)

/-- A context whose bookmarks and MMS collections are non-empty while the
four exported collections are absent. -/
def nbu_ctx_c3 : nbu_ctx :=
  { nbu_ctx_empty with
    bookmarks := some [⟨[65, 0], [⟨0, 1⟩]⟩],
    mmses := some [⟨[66, 0], [⟨0, 1⟩]⟩] }

theorem utf8_encode_length (cp : Nat) :
    (utf8_encode cp).length = utf8_encode_size cp := by
  unfold utf8_encode utf8_encode_size
  split <;> simp_all
  split <;> simp_all
  split <;> simp_all
  split <;> simp_all

theorem utf16_is_surrogate_of_high {u : Nat}
    (h : utf16_is_high_surrogate u = true) : utf16_is_surrogate u = true := by
  unfold utf16_is_high_surrogate at h
  unfold utf16_is_surrogate
  have hand : u &&& 0xfc00 &&& 0xf800 = u &&& 0xf800 := by
    rw [Nat.land_assoc]
    have hc : (0xfc00 : Nat) &&& 0xf800 = 0xf800 := by decide
    rw [hc]
  simp only [beq_iff_eq] at h ⊢
  rw [← hand, h]
  decide

theorem utf16_is_surrogate_of_low {u : Nat}
    (h : utf16_is_low_surrogate u = true) : utf16_is_surrogate u = true := by
  unfold utf16_is_low_surrogate at h
  unfold utf16_is_surrogate
  have hand : u &&& 0xfc00 &&& 0xf800 = u &&& 0xf800 := by
    rw [Nat.land_assoc]
    have hc : (0xfc00 : Nat) &&& 0xf800 = 0xf800 := by decide
    rw [hc]
  simp only [beq_iff_eq] at h ⊢
  rw [← hand, h]
  decide

/-- C5, counterexample.  The high surrogate 0xd800 followed by the unit 0
is an unpaired surrogate, yet utf16_decode reports 0 units consumed, not 1
as the claim states (the C function returns 0 and its caller turns that
into a step of 1). -/
theorem utf16_decode_unpaired_returns_zero :
    utf16_is_surrogate 0xd800 = true ∧
    utf16_is_low_surrogate 0 = false ∧
    utf16_decode 0xd800 0 = (UTF_REPLACEMENT_CHAR, 0) ∧
    (utf16_decode 0xd800 0).2 ≠ 1 := by
  refine ⟨by decide, by decide, by decide, by decide⟩

/-- C5, amended.  For every pair of 16-bit code units: a non-surrogate
first unit decodes to itself with 1 unit consumed; a high surrogate
completed by a low surrogate decodes to a codepoint at least 0x10000 with
2 units consumed; a surrogate not completed by a matching low surrogate
decodes to the replacement codepoint with a returned unit count of 0 (the
caller treats the 0 return as a step of 1). -/
theorem utf16_decode_cases (u1 u2 : Nat) :
    (utf16_is_surrogate u1 = false → utf16_decode u1 u2 = (u1, 1)) ∧
    (utf16_is_high_surrogate u1 = true → utf16_is_low_surrogate u2 = true →
      0x10000 ≤ (utf16_decode u1 u2).1 ∧ (utf16_decode u1 u2).2 = 2) ∧
    (utf16_is_surrogate u1 = true →
      ¬(utf16_is_high_surrogate u1 = true ∧ utf16_is_low_surrogate u2 = true) →
      utf16_decode u1 u2 = (UTF_REPLACEMENT_CHAR, 0)) := by
  refine ⟨fun h => ?_, fun h1 h2 => ?_, fun h1 h2 => ?_⟩
  · simp [utf16_decode, h]
  · have hs := utf16_is_surrogate_of_high h1
    simp [utf16_decode, hs, h1, h2, utf16_decode_surrogate_pair,
      Nat.le_add_left]
  · simp only [utf16_decode, h1]
    simp only [Bool.true_eq_false, if_false]
    rw [if_neg h2]

/-- Witness for utf16_decode_cases at concrete inputs: the surrogate pair
(0xd835, 0xdd4a) decodes to a supplementary-plane codepoint consuming two
units. -/
theorem utf16_decode_cases_witness :
    0x10000 ≤ (utf16_decode 0xd835 0xdd4a).1 ∧
      (utf16_decode 0xd835 0xdd4a).2 = 2 :=
  (utf16_decode_cases 0xd835 0xdd4a).2.1 (by decide) (by decide)

theorem le_value_lt {bs : List Nat} (h : ∀ b ∈ bs, b < 256) :
    le_value bs < 256 ^ bs.length := by
  induction bs with
  | nil => simp [le_value]
  | cons b bs ih =>
    simp only [le_value, List.foldr_cons, List.length_cons]
    have hb : b < 256 := h b (by simp)
    have hrest : le_value bs < 256 ^ bs.length := ih (fun x hx => h x (by simp [hx]))
    calc b + 256 * le_value bs
        ≤ 255 + 256 * (256 ^ bs.length - 1) := by
          have : le_value bs ≤ 256 ^ bs.length - 1 := Nat.le_sub_one_of_lt hrest
          omega
      _ < 256 ^ (bs.length + 1) := by
          have hpos : 1 ≤ (256 : Nat) ^ bs.length := Nat.one_le_pow _ _ (by norm_num)
          rw [pow_succ]
          omega

theorem nbu_read_bytes_lt {s : NbuStream} {p : Int} {k : Nat} {bs : List Nat}
    {p' : Int} (h : nbu_read s p k = .ok (bs, p')) : ∀ b ∈ bs, b < 256 := by
  unfold nbu_read at h
  split at h
  · simp only [Except.ok.injEq, Prod.mk.injEq] at h
    intro b hb
    rw [← h.1] at hb
    simp only [List.mem_map] at hb
    obtain ⟨j, _, rfl⟩ := hb
    exact Nat.mod_lt _ (by norm_num)
  · exact absurd h (by simp)

theorem nbu_read_ok_iff {s : NbuStream} {p : Int} {k : Nat} :
    (∃ r, nbu_read s p k = .ok r) ↔ 0 ≤ p ∧ p.toNat + k ≤ s.size := by
  unfold nbu_read
  split <;> simp_all

theorem nbu_read_ok_parts {s : NbuStream} {p : Int} {k : Nat} {bs : List Nat}
    {p' : Int} (h : nbu_read s p k = .ok (bs, p')) :
    0 ≤ p ∧ p.toNat + k ≤ s.size ∧ p' = p + k ∧
      bs = (List.range k).map (fun j => s.byte (p.toNat + j)) := by
  unfold nbu_read at h
  split at h
  · simp only [Except.ok.injEq, Prod.mk.injEq] at h
    exact ⟨by tauto, by tauto, h.2.symm, h.1.symm⟩
  · exact absurd h (by simp)

/-- Position bound that every successful read establishes: the new cursor
is non-negative and does not exceed the stream size. -/
theorem nbu_read_pos_bound {s : NbuStream} {p : Int} {k : Nat} {bs : List Nat}
    {p' : Int} (h : nbu_read s p k = .ok (bs, p')) :
    0 ≤ p' ∧ p' ≤ (s.size : Int) := by
  obtain ⟨h0, hk, hp, _⟩ := nbu_read_ok_parts h
  subst hp
  constructor
  · omega
  · have : p.toNat = p := Int.toNat_of_nonneg h0
    omega

/-- The only error nbu_read ever reports is a read failure. -/
theorem nbu_read_error {s : NbuStream} {p : Int} {k : Nat} {e : Err}
    (h : nbu_read s p k = .error e) : e = .eof := by
  unfold nbu_read at h
  split at h
  · cases h
  · simp only [Except.error.injEq] at h
    exact h.symm

/-- The only error nbu_read_uint16 ever reports is a read failure. -/
theorem nbu_read_uint16_error {s : NbuStream} {p : Int} {e : Err}
    (h : nbu_read_uint16 s p = .error e) : e = .eof := by
  unfold nbu_read_uint16 at h
  simp only [bind, Except.bind] at h
  cases hr : nbu_read s p 2 with
  | error e' =>
    rw [hr] at h
    cases h
    exact nbu_read_error hr
  | ok r =>
    rw [hr] at h
    simp [pure, Except.pure] at h

/-- The unit-reading loop never reports the string-too-long error; its only
failure is a read failure. -/
theorem nbu_read_utf16_loop_no_tooLong (s : NbuStream) (p : Int) (n : Nat) :
    nbu_read_utf16_loop s p n ≠ .error .tooLong := by
  induction n generalizing p with
  | zero => simp [nbu_read_utf16_loop]
  | succ n ih =>
    simp only [nbu_read_utf16_loop, bind, Except.bind]
    cases h : nbu_read_uint16 s p with
    | error e =>
      have he := nbu_read_uint16_error h
      subst he
      simp
    | ok r =>
      cases hl : nbu_read_utf16_loop s r.2 n with
      | error e =>
        have hne := ih r.2
        rw [hl] at hne
        simp only [hl]
        simpa using hne
      | ok r2 =>
        simp only [hl]
        simp [pure, Except.pure]

theorem nbu_read_uint16_ok {s : NbuStream} {p : Int} (h0 : 0 ≤ p)
    (h : p.toNat + 2 ≤ s.size) :
    nbu_read_uint16 s p =
      .ok (s.byte p.toNat + 256 * s.byte (p.toNat + 1), p + 2) := by
  unfold nbu_read_uint16 nbu_read
  rw [if_pos ⟨h0, h⟩]
  simp [bind, Except.bind, pure, Except.pure, List.range_succ, le_value]

theorem nbu_read_uint16_lt {s : NbuStream} {p : Int} {r : Nat × Int}
    (h : nbu_read_uint16 s p = .ok r) : r.1 < 65536 := by
  unfold nbu_read_uint16 at h
  simp only [bind, Except.bind] at h
  cases hr : nbu_read s p 2 with
  | error e => rw [hr] at h; cases h
  | ok r2 =>
    rw [hr] at h
    simp only [pure, Except.pure, Except.ok.injEq] at h
    obtain ⟨_, _, _, hbs⟩ := nbu_read_ok_parts hr
    have hlt := le_value_lt (nbu_read_bytes_lt hr)
    have hlen : r2.1.length = 2 := by rw [hbs]; simp
    rw [← h]
    simp only [hlen] at hlt
    exact lt_of_lt_of_le hlt (by norm_num)

theorem nbu_read_utf16_loop_ok (s : NbuStream) (p : Int) (n : Nat)
    (h0 : 0 ≤ p) (h : p.toNat + 2 * n ≤ s.size) :
    ∃ us, nbu_read_utf16_loop s p n = .ok (us ++ [0], p + 2 * (n : Int)) ∧
      us.length = n := by
  induction n generalizing p with
  | zero => exact ⟨[], by simp [nbu_read_utf16_loop], rfl⟩
  | succ n ih =>
    have hu := nbu_read_uint16_ok (s := s) h0 (by omega)
    have h0' : 0 ≤ p + 2 := by omega
    have h2 : (p + 2).toNat = p.toNat + 2 := by omega
    obtain ⟨us, hl, hlen⟩ := ih (p + 2) h0' (by omega)
    refine ⟨(s.byte p.toNat + 256 * s.byte (p.toNat + 1)) :: us, ?_, by simp [hlen]⟩
    simp only [nbu_read_utf16_loop, bind, Except.bind, hu, hl, List.cons_append]
    congr 2
    push_cast
    ring

/-- C4, counterexample.  A stream whose 16-bit unit-count prefix is 0xFFFF
does not fail with the string-too-long error: on this two-byte stream the
read fails with an end-of-file error while trying to read the first code
unit.  The C guard compares the requested length against SIZE_MAX, which a
16-bit prefix can never reach. -/
theorem nbu_read_utf16_ffff_not_tooLong :
    nbu_read_uint16 ⟨[0xff, 0xff]⟩ 0 = .ok (0xffff, 2) ∧
    nbu_read_utf16 ⟨[0xff, 0xff]⟩ 0 = .error .eof ∧
    nbu_read_utf16 ⟨[0xff, 0xff]⟩ 0 ≠ .error .tooLong := by
  refine ⟨by decide, by decide, by decide⟩

/-- C4, amended.  The length-prefixed UTF-16 read fails with the
string-too-long error exactly when the requested unit count equals
SIZE_MAX; since the 16-bit prefix is at most 0xFFFF, nbu_read_utf16 never
fails with that error, and for every count (0xFFFF included), when the
stream holds enough data it reads that many 16-bit code units and returns
them NUL-terminated. -/
theorem nbu_read_utf16_tooLong_iff (s : NbuStream) (p : Int) (len : Nat) :
    (nbu_read_utf16_n s p len = .error .tooLong ↔ len = SIZE_MAX) ∧
    nbu_read_utf16 s p ≠ .error .tooLong ∧
    (len ≠ SIZE_MAX → 0 ≤ p → p.toNat + 2 * len ≤ s.size →
      ∃ us, nbu_read_utf16_n s p len = .ok (us ++ [0], p + 2 * (len : Int)) ∧
        us.length = len) := by
  refine ⟨⟨fun h => ?_, fun h => by simp [nbu_read_utf16_n, h]⟩, ?_, ?_⟩
  · by_contra hne
    unfold nbu_read_utf16_n at h
    rw [if_neg hne] at h
    exact nbu_read_utf16_loop_no_tooLong s p len h
  · unfold nbu_read_utf16
    simp only [bind, Except.bind]
    cases h : nbu_read_uint16 s p with
    | error e =>
      have he := nbu_read_uint16_error h
      subst he
      simp
    | ok r =>
      have hlt := nbu_read_uint16_lt h
      have hne : r.1 ≠ SIZE_MAX := by
        have hbig : (65536 : Nat) < SIZE_MAX := by decide
        omega
      unfold nbu_read_utf16_n
      dsimp only
      rw [if_neg hne]
      exact nbu_read_utf16_loop_no_tooLong s r.2 r.1
  · intro hne h0 hsz
    unfold nbu_read_utf16_n
    rw [if_neg hne]
    exact nbu_read_utf16_loop_ok s p len h0 hsz

/-- Witness for nbu_read_utf16_tooLong_iff: on a two-byte stream holding
one code unit, a requested count of one unit succeeds and returns that
unit NUL-terminated. -/
theorem nbu_read_utf16_tooLong_iff_witness :
    ∃ us, nbu_read_utf16_n ⟨[65, 0]⟩ 0 1 = .ok (us ++ [0], 0 + 2 * (1 : Int)) ∧
      us.length = 1 :=
  (nbu_read_utf16_tooLong_iff ⟨[65, 0]⟩ 0 1).2.2 (by decide) (by decide)
    (by decide)

theorem sub64_of_le {a b : Nat} (hb : b ≤ a) (ha : a < 2 ^ 64) :
    sub64 a b = a - b := by
  unfold sub64
  have h64 : (2 : Nat) ^ 64 = 18446744073709551616 := by norm_num
  rw [h64] at ha ⊢
  have hblt : b < 18446744073709551616 := lt_of_le_of_lt hb ha
  rw [Nat.mod_eq_of_lt hblt]
  omega

theorem utf16_convert_size_loop_eq (N : Nat) :
    ∀ rs : List Nat, rs.length ≤ N → ∀ buflen : Nat, buflen ≤ SIZE_MAX →
      utf16_convert_size_loop buflen rs =
        min (buflen + (utf16_to_utf8 rs).length) SIZE_MAX := by
  induction N with
  | zero =>
    intro rs hlen buflen hb
    have hnil : rs = [] := List.eq_nil_of_length_eq_zero (Nat.le_zero.mp hlen)
    subst hnil
    simp only [utf16_convert_size_loop, utf16_to_utf8, List.length_nil,
      Nat.add_zero]
    omega
  | succ N ih =>
    intro rs hlen buflen hb
    rcases rs with _ | ⟨u1, _ | ⟨u2, rest⟩⟩
    · simp only [utf16_convert_size_loop, utf16_to_utf8, List.length_nil,
        Nat.add_zero]
      omega
    · by_cases h0 : u1 = 0
      · subst h0
        simp [utf16_convert_size_loop, utf16_to_utf8]
        omega
      · simp only [utf16_convert_size_loop, utf16_to_utf8, if_neg h0,
          utf8_encode_length]
        split <;> omega
    · by_cases h0 : u1 = 0
      · subst h0
        simp [utf16_convert_size_loop, utf16_to_utf8]
        omega
      · simp only [utf16_convert_size_loop, utf16_to_utf8, if_neg h0]
        by_cases hn2 :
            (if (utf16_decode u1 u2).2 = 0 then 1 else (utf16_decode u1 u2).2) = 2
        · rw [if_pos hn2, if_pos hn2]
          by_cases hov : utf8_encode_size (utf16_decode u1 u2).1 > SIZE_MAX - buflen
          · rw [if_pos hov]
            simp only [List.length_append, utf8_encode_length]
            omega
          · rw [if_neg hov]
            rw [ih rest (by simp only [List.length_cons] at hlen; omega) _
              (by omega)]
            simp only [List.length_append, utf8_encode_length]
            omega
        · rw [if_neg hn2, if_neg hn2]
          by_cases hov : utf8_encode_size (utf16_decode u1 u2).1 > SIZE_MAX - buflen
          · rw [if_pos hov]
            simp only [List.length_append, utf8_encode_length]
            omega
          · rw [if_neg hov]
            rw [ih (u2 :: rest)
              (by simp only [List.length_cons] at hlen ⊢; omega) _ (by omega)]
            simp only [List.length_append, utf8_encode_length]
            omega

theorem fill_break_condition_false {bufsize buflen seqlen tail1 : Nat}
    (hsz : bufsize < 2 ^ 64) (hfit : buflen + (seqlen + tail1) + 1 ≤ bufsize) :
    ¬(sub64 (sub64 bufsize buflen) 1 < 4 ∧ seqlen > sub64 (sub64 bufsize buflen) 1) := by
  have h1 : sub64 bufsize buflen = bufsize - buflen :=
    sub64_of_le (by omega) hsz
  have h2 : sub64 (bufsize - buflen) 1 = bufsize - buflen - 1 :=
    sub64_of_le (by omega) (by omega)
  rw [h1, h2]
  rintro ⟨-, hgt⟩
  omega

theorem utf16_convert_fill_loop_eq (N : Nat) :
    ∀ rs : List Nat, rs.length ≤ N → ∀ bufsize buflen : Nat,
      bufsize < 2 ^ 64 →
      buflen + (utf16_to_utf8 rs).length + 1 ≤ bufsize →
      utf16_convert_fill_loop bufsize buflen rs =
        (utf16_to_utf8 rs, buflen + (utf16_to_utf8 rs).length) := by
  induction N with
  | zero =>
    intro rs hlen bufsize buflen hsz hfit
    have hnil : rs = [] := List.eq_nil_of_length_eq_zero (Nat.le_zero.mp hlen)
    subst hnil
    simp [utf16_convert_fill_loop, utf16_to_utf8]
  | succ N ih =>
    intro rs hlen bufsize buflen hsz hfit
    rcases rs with _ | ⟨u1, _ | ⟨u2, rest⟩⟩
    · simp [utf16_convert_fill_loop, utf16_to_utf8]
    · by_cases h0 : u1 = 0
      · subst h0
        simp [utf16_convert_fill_loop, utf16_to_utf8]
      · simp only [utf16_to_utf8, if_neg h0, utf8_encode_length] at hfit
        simp only [utf16_convert_fill_loop, utf16_to_utf8, if_neg h0]
        rw [if_neg (@fill_break_condition_false bufsize buflen _ 0 hsz (by omega))]
    · by_cases h0 : u1 = 0
      · subst h0
        simp [utf16_convert_fill_loop, utf16_to_utf8]
      · simp only [utf16_to_utf8, if_neg h0] at hfit
        simp only [utf16_convert_fill_loop, utf16_to_utf8, if_neg h0]
        by_cases hn2 :
            (if (utf16_decode u1 u2).2 = 0 then 1 else (utf16_decode u1 u2).2) = 2
        · rw [if_pos hn2] at hfit
          simp only [List.length_append, utf8_encode_length] at hfit
          rw [if_neg (fill_break_condition_false hsz hfit)]
          rw [if_pos hn2, if_pos hn2]
          rw [ih rest (by simp only [List.length_cons] at hlen; omega) bufsize _
            hsz (by rw [utf8_encode_length]; omega)]
          simp only [List.length_append, utf8_encode_length]
          rw [Nat.add_assoc]
        · rw [if_neg hn2] at hfit
          simp only [List.length_append, utf8_encode_length] at hfit
          rw [if_neg (fill_break_condition_false hsz hfit)]
          rw [if_neg hn2, if_neg hn2]
          rw [ih (u2 :: rest) (by simp only [List.length_cons] at hlen ⊢; omega)
            bufsize _ hsz (by rw [utf8_encode_length]; omega)]
          simp only [List.length_append, utf8_encode_length]
          rw [Nat.add_assoc]

/-- C9.  Size-then-fill consistency of utf16_convert_string_to_utf8: the
size-only pass (null buffer) equals the length of the reference
transcoding, saturating to SIZE_MAX on byte-count overflow; and whenever no
saturation occurs, the fill pass given a buffer of the returned size plus
one terminator byte writes exactly that transcoding and returns exactly the
byte count the size pass reported. -/
theorem utf16_convert_size_then_fill (ws : List Nat) :
    utf16_convert_string_to_utf8_size ws =
      min (utf16_to_utf8 ws).length SIZE_MAX ∧
    ((utf16_to_utf8 ws).length < SIZE_MAX →
      utf16_convert_string_to_utf8_fill
          (utf16_convert_string_to_utf8_size ws + 1) ws =
        (utf16_to_utf8 ws, utf16_convert_string_to_utf8_size ws)) := by
  have hsize : utf16_convert_string_to_utf8_size ws =
      min (utf16_to_utf8 ws).length SIZE_MAX := by
    unfold utf16_convert_string_to_utf8_size
    rw [utf16_convert_size_loop_eq ws.length ws le_rfl 0 (Nat.zero_le _)]
    simp
  refine ⟨hsize, fun hlt => ?_⟩
  rw [hsize]
  have hmin : min (utf16_to_utf8 ws).length SIZE_MAX =
      (utf16_to_utf8 ws).length := by omega
  rw [hmin]
  unfold utf16_convert_string_to_utf8_fill
  rw [if_neg (by omega)]
  have hpow : SIZE_MAX + 1 = 2 ^ 64 := by norm_num [SIZE_MAX]
  have h64 : (utf16_to_utf8 ws).length + 1 < 2 ^ 64 := by omega
  rw [utf16_convert_fill_loop_eq ws.length ws le_rfl _ 0 h64 (by omega)]
  simp

/-- Witness for utf16_convert_size_then_fill: a sequence holding an ASCII
unit followed by a surrogate pair transcodes consistently across the
size-only and fill passes. -/
theorem utf16_convert_size_then_fill_witness :
    utf16_convert_string_to_utf8_fill
        (utf16_convert_string_to_utf8_size [0x41, 0xd835, 0xdd4a] + 1)
        [0x41, 0xd835, 0xdd4a] =
      (utf16_to_utf8 [0x41, 0xd835, 0xdd4a],
        utf16_convert_string_to_utf8_size [0x41, 0xd835, 0xdd4a]) :=
  (utf16_convert_size_then_fill [0x41, 0xd835, 0xdd4a]).2 (by decide)

theorem except_bind_ok {α β : Type} {x : Except Err α} {f : α → Except Err β}
    {r : β} (h : x.bind f = .ok r) : ∃ a, x = .ok a ∧ f a = .ok r := by
  cases x with
  | error e => simp [Except.bind] at h
  | ok a => exact ⟨a, rfl, by simpa [Except.bind] using h⟩

theorem nbu_seek_set_inv {t r : Int} (h : nbu_seek_set t = .ok r) :
    r = t ∧ 0 ≤ t := by
  unfold nbu_seek_set at h
  split at h
  · cases h
  · cases h
    exact ⟨rfl, by omega⟩

theorem nbu_seek_cur_inv {p off r : Int} (h : nbu_seek_cur p off = .ok r) :
    r = p + off ∧ 0 ≤ p + off := by
  unfold nbu_seek_cur at h
  split at h
  · cases h
  · cases h
    exact ⟨rfl, by omega⟩

theorem nbu_read_uint8_inv {s : NbuStream} {p : Int} {r : Nat × Int}
    (h : nbu_read_uint8 s p = .ok r) :
    0 ≤ p ∧ p.toNat + 1 ≤ s.size ∧ r.2 = p + 1 := by
  unfold nbu_read_uint8 at h
  simp only [bind, Except.bind] at h
  cases hr : nbu_read s p 1 with
  | error e => rw [hr] at h; cases h
  | ok a =>
    rw [hr] at h
    obtain ⟨h0, hk, hp, -⟩ := nbu_read_ok_parts hr
    simp only [pure, Except.pure, Except.ok.injEq] at h
    exact ⟨h0, hk, by rw [← h]; exact hp⟩

theorem nbu_read_uint16_inv {s : NbuStream} {p : Int} {r : Nat × Int}
    (h : nbu_read_uint16 s p = .ok r) :
    0 ≤ p ∧ p.toNat + 2 ≤ s.size ∧ r.2 = p + 2 := by
  unfold nbu_read_uint16 at h
  simp only [bind, Except.bind] at h
  cases hr : nbu_read s p 2 with
  | error e => rw [hr] at h; cases h
  | ok a =>
    rw [hr] at h
    obtain ⟨h0, hk, hp, -⟩ := nbu_read_ok_parts hr
    simp only [pure, Except.pure, Except.ok.injEq] at h
    exact ⟨h0, hk, by rw [← h]; exact hp⟩

theorem nbu_read_uint32_inv {s : NbuStream} {p : Int} {r : Nat × Int}
    (h : nbu_read_uint32 s p = .ok r) :
    0 ≤ p ∧ p.toNat + 4 ≤ s.size ∧ r.2 = p + 4 := by
  unfold nbu_read_uint32 at h
  simp only [bind, Except.bind] at h
  cases hr : nbu_read s p 4 with
  | error e => rw [hr] at h; cases h
  | ok a =>
    rw [hr] at h
    obtain ⟨h0, hk, hp, -⟩ := nbu_read_ok_parts hr
    simp only [pure, Except.pure, Except.ok.injEq] at h
    exact ⟨h0, hk, by rw [← h]; exact hp⟩

theorem nbu_read_uint64_inv {s : NbuStream} {p : Int} {r : Nat × Int}
    (h : nbu_read_uint64 s p = .ok r) :
    0 ≤ p ∧ p.toNat + 8 ≤ s.size ∧ r.2 = p + 8 := by
  unfold nbu_read_uint64 at h
  simp only [bind, Except.bind] at h
  cases hr : nbu_read s p 8 with
  | error e => rw [hr] at h; cases h
  | ok a =>
    rw [hr] at h
    obtain ⟨h0, hk, hp, -⟩ := nbu_read_ok_parts hr
    simp only [pure, Except.pure, Except.ok.injEq] at h
    exact ⟨h0, hk, by rw [← h]; exact hp⟩

/-- A word read establishes item_ok for an item recorded at the cursor the
read leaves behind. -/
theorem item_ok_of_uint32 {s : NbuStream} {p : Int} {r : Nat × Int}
    (h : nbu_read_uint32 s p = .ok r) {len : Nat} :
    item_ok s ⟨r.2, len⟩ := by
  obtain ⟨h0, hk, hp⟩ := nbu_read_uint32_inv h
  constructor
  · simp only [hp]; omega
  · simp only [hp]
    have ht : p.toNat = p := Int.toNat_of_nonneg h0
    omega

theorem item_ok_of_uint16 {s : NbuStream} {p : Int} {r : Nat × Int}
    (h : nbu_read_uint16 s p = .ok r) {len : Nat} :
    item_ok s ⟨r.2, len⟩ := by
  obtain ⟨h0, hk, hp⟩ := nbu_read_uint16_inv h
  constructor
  · simp only [hp]; omega
  · simp only [hp]
    have ht : p.toNat = p := Int.toNat_of_nonneg h0
    omega

theorem nbu_read_vcards_loop_items (s : NbuStream) :
    ∀ (n : Nat) (p : Int) (items : List nbu_item) (q : Int),
      nbu_read_vcards_loop s n p = .ok (items, q) →
      ∀ it ∈ items, item_ok s it := by
  intro n
  induction n with
  | zero =>
    intro p items q h it hit
    simp only [nbu_read_vcards_loop, Except.ok.injEq, Prod.mk.injEq] at h
    rw [← h.1] at hit
    cases hit
  | succ n ih =>
    intro p items q h it hit
    simp only [nbu_read_vcards_loop, bind, Except.bind] at h
    obtain ⟨⟨test, p1⟩, h1, h⟩ := except_bind_ok h
    obtain ⟨p2, h2, h⟩ := except_bind_ok h
    obtain ⟨⟨len, p3⟩, h3, h⟩ := except_bind_ok h
    obtain ⟨p4, h4, h⟩ := except_bind_ok h
    obtain ⟨⟨items5, p5⟩, h5, h⟩ := except_bind_ok h
    simp only [pure, Except.pure, Except.ok.injEq, Prod.mk.injEq] at h
    rw [← h.1] at hit
    rcases List.mem_cons.mp hit with heq | hmem
    · subst heq
      exact item_ok_of_uint32 h3
    · exact ih p4 items5 p5 h5 it hmem

theorem nbu_read_vcards_items {s : NbuStream} {p : Int} {items : List nbu_item}
    {q : Int} (h : nbu_read_vcards s p = .ok (items, q)) :
    ∀ it ∈ items, item_ok s it := by
  unfold nbu_read_vcards at h
  simp only [bind, Except.bind] at h
  obtain ⟨⟨cnt, p1⟩, h1, h⟩ := except_bind_ok h
  exact nbu_read_vcards_loop_items s cnt p1 items q h

theorem nbu_read_vcard_section_items {s : NbuStream} {sp : Nat} {p : Int}
    {items : List nbu_item} {q : Int}
    (h : nbu_read_vcard_section s sp p = .ok (items, q)) :
    ∀ it ∈ items, item_ok s it := by
  unfold nbu_read_vcard_section at h
  simp only [bind, Except.bind] at h
  obtain ⟨⟨n1, p1⟩, h1, h⟩ := except_bind_ok h
  obtain ⟨⟨nf, p2⟩, h2, h⟩ := except_bind_ok h
  split at h
  · cases h
  · obtain ⟨⟨items4, p4⟩, h4, h⟩ := except_bind_ok h
    obtain ⟨p5, h5, h⟩ := except_bind_ok h
    simp only [pure, Except.pure, Except.ok.injEq, Prod.mk.injEq] at h
    rw [← h.1]
    exact nbu_read_vcards_items h4

theorem nbu_read_vcard_folder_ok {s : NbuStream} {fp : Nat} {f : nbu_folder}
    {q : Int} (h : nbu_read_vcard_folder s fp = .ok (f, q)) :
    folder_ok s f := by
  unfold nbu_read_vcard_folder at h
  simp only [bind, Except.bind] at h
  obtain ⟨⟨name, p2⟩, h2, h⟩ := except_bind_ok h
  obtain ⟨⟨items, p3⟩, h3, h⟩ := except_bind_ok h
  simp only [pure, Except.pure, Except.ok.injEq, Prod.mk.injEq] at h
  rw [← h.1]
  intro it hit
  exact nbu_read_vcards_items h3 it hit

theorem nbu_read_vcard_folders_loop_ok (s : NbuStream) :
    ∀ (n : Nat) (p : Int) (fs : List nbu_folder) (q : Int),
      nbu_read_vcard_folders_loop s n p = .ok (fs, q) →
      ∀ f ∈ fs, folder_ok s f := by
  intro n
  induction n with
  | zero =>
    intro p fs q h f hf
    simp only [nbu_read_vcard_folders_loop, Except.ok.injEq, Prod.mk.injEq] at h
    rw [← h.1] at hf
    cases hf
  | succ n ih =>
    intro p fs q h f hf
    simp only [nbu_read_vcard_folders_loop, bind, Except.bind] at h
    obtain ⟨p1, h1, h⟩ := except_bind_ok h
    obtain ⟨⟨fp, p2⟩, h2, h⟩ := except_bind_ok h
    obtain ⟨⟨fold, p3⟩, h3, h⟩ := except_bind_ok h
    obtain ⟨p4, h4, h⟩ := except_bind_ok h
    obtain ⟨⟨folds, p5⟩, h5, h⟩ := except_bind_ok h
    simp only [pure, Except.pure, Except.ok.injEq, Prod.mk.injEq] at h
    rw [← h.1] at hf
    rcases List.mem_cons.mp hf with heq | hmem
    · subst heq
      exact nbu_read_vcard_folder_ok h3
    · exact ih p4 folds p5 h5 f hmem

theorem nbu_read_vcard_folder_section_ok {s : NbuStream} {p : Int}
    {fs : List nbu_folder} {q : Int}
    (h : nbu_read_vcard_folder_section s p = .ok (fs, q)) :
    ∀ f ∈ fs, folder_ok s f := by
  unfold nbu_read_vcard_folder_section at h
  simp only [bind, Except.bind] at h
  obtain ⟨⟨n1, p1⟩, h1, h⟩ := except_bind_ok h
  obtain ⟨⟨nf, p2⟩, h2, h⟩ := except_bind_ok h
  exact nbu_read_vcard_folders_loop_ok s nf p2 fs q h

theorem nbu_read_message_items_loop_items (s : NbuStream) :
    ∀ (n : Nat) (p : Int) (items : List nbu_item) (q : Int),
      nbu_read_message_items_loop s n p = .ok (items, q) →
      ∀ it ∈ items, item_ok s it := by
  intro n
  induction n with
  | zero =>
    intro p items q h it hit
    simp only [nbu_read_message_items_loop, Except.ok.injEq, Prod.mk.injEq] at h
    rw [← h.1] at hit
    cases hit
  | succ n ih =>
    intro p items q h it hit
    simp only [nbu_read_message_items_loop, bind, Except.bind] at h
    obtain ⟨p1, h1, h⟩ := except_bind_ok h
    obtain ⟨⟨len, p2⟩, h2, h⟩ := except_bind_ok h
    obtain ⟨p3, h3, h⟩ := except_bind_ok h
    obtain ⟨⟨items4, p4⟩, h4, h⟩ := except_bind_ok h
    simp only [pure, Except.pure, Except.ok.injEq, Prod.mk.injEq] at h
    rw [← h.1] at hit
    rcases List.mem_cons.mp hit with heq | hmem
    · subst heq
      exact item_ok_of_uint32 h2
    · exact ih p3 items4 p4 h4 it hmem

theorem nbu_read_message_folder_ok {s : NbuStream} {fp : Nat} {f : nbu_folder}
    {q : Int} (h : nbu_read_message_folder s fp = .ok (f, q)) :
    folder_ok s f := by
  unfold nbu_read_message_folder at h
  simp only [bind, Except.bind] at h
  obtain ⟨⟨name, p2⟩, h2, h⟩ := except_bind_ok h
  obtain ⟨⟨cnt, p3⟩, h3, h⟩ := except_bind_ok h
  obtain ⟨⟨items, p4⟩, h4, h⟩ := except_bind_ok h
  simp only [pure, Except.pure, Except.ok.injEq, Prod.mk.injEq] at h
  rw [← h.1]
  intro it hit
  exact nbu_read_message_items_loop_items s cnt p3 items p4 h4 it hit

theorem nbu_read_mms_items_loop_items (s : NbuStream) :
    ∀ (n : Nat) (p : Int) (items : List nbu_item) (q : Int),
      nbu_read_mms_items_loop s n p = .ok (items, q) →
      ∀ it ∈ items, item_ok s it := by
  intro n
  induction n with
  | zero =>
    intro p items q h it hit
    simp only [nbu_read_mms_items_loop, Except.ok.injEq, Prod.mk.injEq] at h
    rw [← h.1] at hit
    cases hit
  | succ n ih =>
    intro p items q h it hit
    simp only [nbu_read_mms_items_loop, bind, Except.bind] at h
    obtain ⟨p1, h1, h⟩ := except_bind_ok h
    obtain ⟨⟨cnt, p2⟩, h2, h⟩ := except_bind_ok h
    obtain ⟨p3, h3, h⟩ := except_bind_ok h
    obtain ⟨p4, h4, h⟩ := except_bind_ok h
    obtain ⟨⟨len, p5⟩, h5, h⟩ := except_bind_ok h
    obtain ⟨p6, h6, h⟩ := except_bind_ok h
    obtain ⟨⟨items7, p7⟩, h7, h⟩ := except_bind_ok h
    simp only [pure, Except.pure, Except.ok.injEq, Prod.mk.injEq] at h
    rw [← h.1] at hit
    rcases List.mem_cons.mp hit with heq | hmem
    · subst heq
      exact item_ok_of_uint32 h5
    · exact ih p6 items7 p7 h7 it hmem

theorem nbu_read_mms_folder_ok {s : NbuStream} {fp : Nat} {f : nbu_folder}
    {q : Int} (h : nbu_read_mms_folder s fp = .ok (f, q)) :
    folder_ok s f := by
  unfold nbu_read_mms_folder at h
  simp only [bind, Except.bind] at h
  obtain ⟨⟨name, p2⟩, h2, h⟩ := except_bind_ok h
  obtain ⟨⟨cnt, p3⟩, h3, h⟩ := except_bind_ok h
  obtain ⟨⟨items, p4⟩, h4, h⟩ := except_bind_ok h
  simp only [pure, Except.pure, Except.ok.injEq, Prod.mk.injEq] at h
  rw [← h.1]
  intro it hit
  exact nbu_read_mms_items_loop_items s cnt p3 items p4 h4 it hit

theorem nbu_read_memos_loop_items (s : NbuStream) :
    ∀ (n : Nat) (p : Int) (items : List nbu_item) (q : Int),
      nbu_read_memos_loop s n p = .ok (items, q) →
      ∀ it ∈ items, item_ok s it := by
  intro n
  induction n with
  | zero =>
    intro p items q h it hit
    simp only [nbu_read_memos_loop, Except.ok.injEq, Prod.mk.injEq] at h
    rw [← h.1] at hit
    cases hit
  | succ n ih =>
    intro p items q h it hit
    simp only [nbu_read_memos_loop, bind, Except.bind] at h
    obtain ⟨⟨len, p1⟩, h1, h⟩ := except_bind_ok h
    split at h
    · cases h
    · obtain ⟨p2, h2, h⟩ := except_bind_ok h
      obtain ⟨⟨items3, p3⟩, h3, h⟩ := except_bind_ok h
      simp only [pure, Except.pure, Except.ok.injEq, Prod.mk.injEq] at h
      rw [← h.1] at hit
      rcases List.mem_cons.mp hit with heq | hmem
      · subst heq
        obtain ⟨p0, h0, h1⟩ := except_bind_ok h1
        exact item_ok_of_uint16 h1
      · exact ih p2 items3 p3 h3 it hmem

theorem nbu_read_message_folders_loop_ok (s : NbuStream) :
    ∀ (n : Nat) (p : Int) (fs : List nbu_folder) (q : Int),
      nbu_read_message_folders_loop s n p = .ok (fs, q) →
      ∀ f ∈ fs, folder_ok s f := by
  intro n
  induction n with
  | zero =>
    intro p fs q h f hf
    simp only [nbu_read_message_folders_loop, Except.ok.injEq, Prod.mk.injEq] at h
    rw [← h.1] at hf
    cases hf
  | succ n ih =>
    intro p fs q h f hf
    simp only [nbu_read_message_folders_loop, bind, Except.bind] at h
    obtain ⟨p1, h1, h⟩ := except_bind_ok h
    obtain ⟨⟨fp, p2⟩, h2, h⟩ := except_bind_ok h
    obtain ⟨⟨fold, p3⟩, h3, h⟩ := except_bind_ok h
    obtain ⟨p4, h4, h⟩ := except_bind_ok h
    obtain ⟨⟨folds, p5⟩, h5, h⟩ := except_bind_ok h
    simp only [pure, Except.pure, Except.ok.injEq, Prod.mk.injEq] at h
    rw [← h.1] at hf
    rcases List.mem_cons.mp hf with heq | hmem
    · subst heq
      exact nbu_read_message_folder_ok h3
    · exact ih p4 folds p5 h5 f hmem

theorem nbu_read_mms_folders_loop_ok (s : NbuStream) :
    ∀ (n : Nat) (p : Int) (fs : List nbu_folder) (q : Int),
      nbu_read_mms_folders_loop s n p = .ok (fs, q) →
      ∀ f ∈ fs, folder_ok s f := by
  intro n
  induction n with
  | zero =>
    intro p fs q h f hf
    simp only [nbu_read_mms_folders_loop, Except.ok.injEq, Prod.mk.injEq] at h
    rw [← h.1] at hf
    cases hf
  | succ n ih =>
    intro p fs q h f hf
    simp only [nbu_read_mms_folders_loop, bind, Except.bind] at h
    obtain ⟨p1, h1, h⟩ := except_bind_ok h
    obtain ⟨⟨fp, p2⟩, h2, h⟩ := except_bind_ok h
    obtain ⟨⟨fold, p3⟩, h3, h⟩ := except_bind_ok h
    obtain ⟨p4, h4, h⟩ := except_bind_ok h
    obtain ⟨⟨folds, p5⟩, h5, h⟩ := except_bind_ok h
    simp only [pure, Except.pure, Except.ok.injEq, Prod.mk.injEq] at h
    rw [← h.1] at hf
    rcases List.mem_cons.mp hf with heq | hmem
    · subst heq
      exact nbu_read_mms_folder_ok h3
    · exact ih p4 folds p5 h5 f hmem

theorem nbu_read_calendar_section_ctx_ok {s : NbuStream} {ctx : nbu_ctx}
    {sp : Nat} {p : Int} {r : nbu_ctx × Int}
    (h : nbu_read_calendar_section s ctx sp p = .ok r) (hc : ctx_ok s ctx) :
    ctx_ok s r.1 := by
  unfold nbu_read_calendar_section at h
  simp only [bind, Except.bind] at h
  obtain ⟨⟨items, p1⟩, h1, h⟩ := except_bind_ok h
  simp only [pure, Except.pure, Except.ok.injEq] at h
  rw [← h]
  exact ⟨hc.1, hc.2.1, hc.2.2.1,
    fun x hx => nbu_read_vcard_section_items h1 x hx,
    hc.2.2.2.2.1, hc.2.2.2.2.2⟩

theorem nbu_read_contacts_section_ctx_ok {s : NbuStream} {ctx : nbu_ctx}
    {sp : Nat} {p : Int} {r : nbu_ctx × Int}
    (h : nbu_read_contacts_section s ctx sp p = .ok r) (hc : ctx_ok s ctx) :
    ctx_ok s r.1 := by
  unfold nbu_read_contacts_section at h
  simp only [bind, Except.bind] at h
  obtain ⟨⟨items, p1⟩, h1, h⟩ := except_bind_ok h
  simp only [pure, Except.pure, Except.ok.injEq] at h
  rw [← h]
  exact ⟨hc.1, hc.2.1, hc.2.2.1, hc.2.2.2.1,
    fun x hx => nbu_read_vcard_section_items h1 x hx, hc.2.2.2.2.2⟩

theorem nbu_read_bookmarks_section_ctx_ok {s : NbuStream} {ctx : nbu_ctx}
    {sp : Nat} {p : Int} {r : nbu_ctx × Int}
    (h : nbu_read_bookmarks_section s ctx sp p = .ok r) (hc : ctx_ok s ctx) :
    ctx_ok s r.1 := by
  unfold nbu_read_bookmarks_section at h
  simp only [bind, Except.bind] at h
  obtain ⟨⟨folds, p1⟩, h1, h⟩ := except_bind_ok h
  simp only [pure, Except.pure, Except.ok.injEq] at h
  rw [← h]
  exact ⟨fun x hx => nbu_read_vcard_folder_section_ok h1 x hx,
    hc.2.1, hc.2.2.1, hc.2.2.2.1, hc.2.2.2.2.1, hc.2.2.2.2.2⟩

theorem nbu_read_messages_section_ctx_ok {s : NbuStream} {ctx : nbu_ctx}
    {sp : Nat} {p : Int} {r : nbu_ctx × Int}
    (h : nbu_read_messages_section s ctx sp p = .ok r) (hc : ctx_ok s ctx) :
    ctx_ok s r.1 := by
  unfold nbu_read_messages_section at h
  simp only [bind, Except.bind] at h
  obtain ⟨⟨n1, p1⟩, h1, h⟩ := except_bind_ok h
  obtain ⟨⟨nf, p2⟩, h2, h⟩ := except_bind_ok h
  obtain ⟨⟨folds, p3⟩, h3, h⟩ := except_bind_ok h
  simp only [pure, Except.pure, Except.ok.injEq] at h
  rw [← h]
  exact ⟨hc.1, fun x hx => nbu_read_message_folders_loop_ok s nf p2 folds p3 h3 x hx,
    hc.2.2.1, hc.2.2.2.1, hc.2.2.2.2.1, hc.2.2.2.2.2⟩

theorem nbu_read_mms_section_ctx_ok {s : NbuStream} {ctx : nbu_ctx}
    {sp : Nat} {p : Int} {r : nbu_ctx × Int}
    (h : nbu_read_mms_section s ctx sp p = .ok r) (hc : ctx_ok s ctx) :
    ctx_ok s r.1 := by
  unfold nbu_read_mms_section at h
  simp only [bind, Except.bind] at h
  obtain ⟨⟨n1, p1⟩, h1, h⟩ := except_bind_ok h
  obtain ⟨⟨nf, p2⟩, h2, h⟩ := except_bind_ok h
  obtain ⟨⟨folds, p3⟩, h3, h⟩ := except_bind_ok h
  simp only [pure, Except.pure, Except.ok.injEq] at h
  rw [← h]
  exact ⟨hc.1, hc.2.1,
    fun x hx => nbu_read_mms_folders_loop_ok s nf p2 folds p3 h3 x hx,
    hc.2.2.2.1, hc.2.2.2.2.1, hc.2.2.2.2.2⟩

theorem nbu_read_memos_section_ctx_ok {s : NbuStream} {ctx : nbu_ctx}
    {sp : Nat} {p : Int} {r : nbu_ctx × Int}
    (h : nbu_read_memos_section s ctx sp p = .ok r) (hc : ctx_ok s ctx) :
    ctx_ok s r.1 := by
  unfold nbu_read_memos_section at h
  simp only [bind, Except.bind] at h
  obtain ⟨⟨cnt, p1⟩, h1, h⟩ := except_bind_ok h
  obtain ⟨⟨items, p2⟩, h2, h⟩ := except_bind_ok h
  obtain ⟨p3, h3, h⟩ := except_bind_ok h
  simp only [pure, Except.pure, Except.ok.injEq] at h
  rw [← h]
  exact ⟨hc.1, hc.2.1, hc.2.2.1, hc.2.2.2.1, hc.2.2.2.2.1,
    fun x hx => nbu_read_memos_loop_items s cnt _ items p2 h2 x hx⟩

theorem nbu_read_groups_section_ctx_ok {s : NbuStream} {ctx : nbu_ctx}
    {sp : Nat} {p : Int} {r : nbu_ctx × Int}
    (h : nbu_read_groups_section s ctx sp p = .ok r) (hc : ctx_ok s ctx) :
    ctx_ok s r.1 := by
  unfold nbu_read_groups_section at h
  simp only [bind, Except.bind] at h
  obtain ⟨⟨n1, p1⟩, h1, h⟩ := except_bind_ok h
  obtain ⟨⟨ng, p2⟩, h2, h⟩ := except_bind_ok h
  obtain ⟨p3, h3, h⟩ := except_bind_ok h
  simp only [pure, Except.pure, Except.ok.injEq] at h
  rw [← h]
  exact hc

theorem nbu_read_advanced_settings_section_ctx_ok {s : NbuStream}
    {ctx : nbu_ctx} {sp : Nat} {p : Int} {r : nbu_ctx × Int}
    (h : nbu_read_advanced_settings_section s ctx sp p = .ok r)
    (hc : ctx_ok s ctx) : ctx_ok s r.1 := by
  unfold nbu_read_advanced_settings_section at h
  simp only [bind, Except.bind] at h
  obtain ⟨⟨n1, p1⟩, h1, h⟩ := except_bind_ok h
  obtain ⟨⟨nf, p2⟩, h2, h⟩ := except_bind_ok h
  obtain ⟨p3, h3, h⟩ := except_bind_ok h
  simp only [pure, Except.pure, Except.ok.injEq] at h
  rw [← h]
  exact hc

theorem nbu_read_section_ctx_ok {s : NbuStream} {ctx : nbu_ctx}
    {guid : List Nat} {pos : Nat} {p : Int} {r : nbu_ctx × Int}
    (h : nbu_read_section s ctx guid pos p = .ok r) (hc : ctx_ok s ctx) :
    ctx_ok s r.1 := by
  unfold nbu_read_section at h
  cases hf : (nbu_sections s).find? (fun e => e.1 == guid) with
  | none => rw [hf] at h; cases h
  | some e =>
    rw [hf] at h
    have hmem := List.mem_of_find?_eq_some hf
    simp only [nbu_sections, List.mem_cons, List.not_mem_nil, or_false] at hmem
    rcases hmem with rfl | rfl | rfl | rfl | rfl | rfl | rfl | rfl
    · exact @nbu_read_calendar_section_ctx_ok s ctx pos p r h hc
    · exact @nbu_read_groups_section_ctx_ok s ctx pos p r h hc
    · exact @nbu_read_advanced_settings_section_ctx_ok s ctx pos p r h hc
    · exact @nbu_read_mms_section_ctx_ok s ctx pos p r h hc
    · exact @nbu_read_memos_section_ctx_ok s ctx pos p r h hc
    · exact @nbu_read_messages_section_ctx_ok s ctx pos p r h hc
    · exact @nbu_read_bookmarks_section_ctx_ok s ctx pos p r h hc
    · exact @nbu_read_contacts_section_ctx_ok s ctx pos p r h hc

theorem nbu_read_sections_loop_ctx_ok (s : NbuStream) :
    ∀ (n : Nat) (ctx : nbu_ctx) (p : Int) (r : nbu_ctx × Int),
      nbu_read_sections_loop s n ctx p = .ok r → ctx_ok s ctx →
      ctx_ok s r.1 := by
  intro n
  induction n with
  | zero =>
    intro ctx p r h hc
    simp only [nbu_read_sections_loop, Except.ok.injEq] at h
    rw [← h]
    exact hc
  | succ n ih =>
    intro ctx p r h hc
    simp only [nbu_read_sections_loop, bind, Except.bind] at h
    obtain ⟨⟨guid, p1⟩, h1, h⟩ := except_bind_ok h
    obtain ⟨⟨pos, p2⟩, h2, h⟩ := except_bind_ok h
    obtain ⟨p3, h3, h⟩ := except_bind_ok h
    obtain ⟨⟨ctx4, p4⟩, h4, h⟩ := except_bind_ok h
    exact ih ctx4 p4 r h (nbu_read_section_ctx_ok h4 hc)

/-- C2, amended.  Every item recorded by any section handler during a parse
that completes successfully has a non-negative position that does not
exceed the size of the source stream (the position is the ftell value taken
immediately after a successful read).  The sum position + length can exceed
the stream size, since the skip over a payload is an fseek and fseek past
end of file succeeds; the overrun is only caught at export time. -/
theorem nbu_read_sections_items_in_bounds (s : NbuStream) (r : nbu_ctx × Int)
    (h : nbu_read_sections s nbu_ctx_empty 0 = .ok r) :
    ctx_ok s r.1 := by
  unfold nbu_read_sections at h
  simp only [bind, Except.bind] at h
  obtain ⟨⟨cnt, p1⟩, h1, h⟩ := except_bind_ok h
  exact nbu_read_sections_loop_ctx_ok s cnt nbu_ctx_empty p1 r h
    ⟨trivial, trivial, trivial, trivial, trivial, trivial⟩

theorem nbu_read_ok_eq {s : NbuStream} {p : Int} {k : Nat} (h0 : 0 ≤ p)
    (h : p.toNat + k ≤ s.size) :
    nbu_read s p k =
      .ok ((List.range k).map (fun j => s.byte (p.toNat + j)), p + k) := by
  unfold nbu_read
  rw [if_pos ⟨h0, h⟩]

theorem nbu_read_uint64_ok {s : NbuStream} {p : Int} (h0 : 0 ≤ p)
    (h : p.toNat + 8 ≤ s.size) :
    nbu_read_uint64 s p =
      .ok (le_value ((List.range 8).map (fun j => s.byte (p.toNat + j))),
        p + 8) := by
  unfold nbu_read_uint64
  rw [nbu_read_ok_eq h0 h]
  simp [bind, Except.bind, pure, Except.pure]

/-- C1, amended.  For every section entry whose 32 bytes are readable, the
dispatcher loop invokes the handler matched by the 16-byte identifier with
the stream cursor at the position immediately following the entry (entry
start plus 32), passing the declared absolute position as an argument; it
performs no seek to the declared position, and the following entry is
processed at whatever cursor the handler leaves behind, with no restore by
the dispatcher (cursor discipline across sections is implemented inside the
handlers). -/
theorem nbu_read_sections_loop_step (s : NbuStream) (n : Nat) (ctx : nbu_ctx)
    (p : Int) (h0 : 0 ≤ p) (hsz : p.toNat + 24 ≤ s.size) :
    nbu_read_sections_loop s (n + 1) ctx p =
      (nbu_read_section s ctx
          ((List.range 16).map (fun j => s.byte (p.toNat + j)))
          (le_value ((List.range 8).map (fun j => s.byte (p.toNat + 16 + j))))
          (p + 32)).bind
        (fun r => nbu_read_sections_loop s n r.1 r.2) := by
  simp only [nbu_read_sections_loop, bind, Except.bind]
  rw [nbu_read_ok_eq h0 (by omega)]
  dsimp only
  push_cast
  have h16 : (0 : Int) ≤ p + 16 := by omega
  have ht : (p + 16).toNat = p.toNat + 16 := by omega
  rw [nbu_read_uint64_ok h16 (by rw [ht]; omega)]
  dsimp only
  simp only [ht]
  have hseek : nbu_seek_cur (p + 16 + 8) 8 = .ok (p + 32) := by
    unfold nbu_seek_cur
    rw [if_neg (by omega)]
    have harith : p + 16 + 8 + 8 = p + 32 := by ring
    rw [harith]
  rw [hseek]

/-- Witness for nbu_read_sections_loop_step: the single-entry section table
of nbu_stream_c1, starting at cursor 4, dispatches with the cursor at 36
and passes the declared position read from the entry. -/
theorem nbu_read_sections_loop_step_witness :
    nbu_read_sections_loop nbu_stream_c1 1 nbu_ctx_empty 4 =
      (nbu_read_section nbu_stream_c1 nbu_ctx_empty
          ((List.range 16).map (fun j => nbu_stream_c1.byte ((4 : Int).toNat + j)))
          (le_value ((List.range 8).map
            (fun j => nbu_stream_c1.byte ((4 : Int).toNat + 16 + j))))
          ((4 : Int) + 32)).bind
        (fun r => nbu_read_sections_loop nbu_stream_c1 0 r.1 r.2) :=
  nbu_read_sections_loop_step nbu_stream_c1 0 nbu_ctx_empty 4 (by decide)
    (by decide)

/-- C1, counterexample.  On nbu_stream_c1 the dispatcher of the code does
not behave as the claim describes: a dispatcher that records the post-entry
cursor, seeks to the declared position before invoking the handler, and
restores the cursor afterwards (nbu_read_sections_specModel, modelled from
the claim) parses one memo item and finishes at cursor 36, while the code
dispatcher (nbu_read_sections) parses zero memos and finishes at cursor 44,
because the handler is invoked at the post-entry cursor with no seek and no
restore. -/
theorem nbu_read_sections_not_spec_dispatch :
    nbu_read_sections nbu_stream_c1 nbu_ctx_empty 0 =
      .ok ({ nbu_ctx_empty with memos := some [] }, 44) ∧
    nbu_read_sections_specModel nbu_stream_c1 nbu_ctx_empty 0 =
      .ok ({ nbu_ctx_empty with memos := some [⟨54, 2⟩] }, 36) ∧
    nbu_read_sections nbu_stream_c1 nbu_ctx_empty 0 ≠
      nbu_read_sections_specModel nbu_stream_c1 nbu_ctx_empty 0 :=
  ⟨by decide, by decide, by decide⟩

/-- C2, counterexample.  On nbu_stream_c2 the parse completes successfully
and records the memo item at position 54 with byte length 200, yet the
stream holds only 54 bytes: position plus length exceeds the stream size,
because the skip over the memo payload is an fseek, which succeeds past end
of file. -/
theorem nbu_parse_item_overruns_stream :
    nbu_read_sections nbu_stream_c2 nbu_ctx_empty 0 =
      .ok ({ nbu_ctx_empty with memos := some [⟨54, 200⟩] }, 44) ∧
    54 + 200 > nbu_stream_c2.size :=
  ⟨by decide, by decide⟩

/-- Witness for nbu_read_sections_items_in_bounds: the successfully parsed
context of nbu_stream_c2 satisfies the position bounds. -/
theorem nbu_read_sections_items_in_bounds_witness :
    ctx_ok nbu_stream_c2 { nbu_ctx_empty with memos := some [⟨54, 200⟩] } :=
  nbu_read_sections_items_in_bounds nbu_stream_c2
    ({ nbu_ctx_empty with memos := some [⟨54, 200⟩] }, 44) (by decide)

theorem except_bind_error {α β : Type} {x : Except Err α} {f : α → Except Err β}
    {e : Err} (h : x.bind f = .error e) :
    x = .error e ∨ ∃ a, x = .ok a ∧ f a = .error e := by
  cases x with
  | error e' =>
    left
    simp only [Except.bind, Except.error.injEq] at h
    rw [h]
  | ok a =>
    right
    exact ⟨a, rfl, by simpa [Except.bind] using h⟩

theorem nbu_seek_set_error {t : Int} {e : Err}
    (h : nbu_seek_set t = .error e) : e = .seekFail := by
  unfold nbu_seek_set at h
  split at h
  · cases h; rfl
  · cases h

theorem nbu_seek_cur_error {p off : Int} {e : Err}
    (h : nbu_seek_cur p off = .error e) : e = .seekFail := by
  unfold nbu_seek_cur at h
  split at h
  · cases h; rfl
  · cases h

theorem nbu_read_uint32_error {s : NbuStream} {p : Int} {e : Err}
    (h : nbu_read_uint32 s p = .error e) : e = .eof := by
  unfold nbu_read_uint32 at h
  simp only [bind, Except.bind] at h
  cases hr : nbu_read s p 4 with
  | error e' =>
    rw [hr] at h
    cases h
    exact nbu_read_error hr
  | ok r =>
    rw [hr] at h
    simp [pure, Except.pure] at h

theorem nbu_read_vcards_loop_error (s : NbuStream) :
    ∀ (n : Nat) (p : Int) (e : Err),
      nbu_read_vcards_loop s n p = .error e → e = .eof ∨ e = .seekFail := by
  intro n
  induction n with
  | zero =>
    intro p e h
    simp [nbu_read_vcards_loop] at h
  | succ n ih =>
    intro p e h
    simp only [nbu_read_vcards_loop, bind, Except.bind] at h
    rcases except_bind_error h with h1 | ⟨⟨test, p1⟩, h1, h⟩
    · exact Or.inl (nbu_read_uint32_error h1)
    · rcases except_bind_error h with h2 | ⟨p2, h2, h⟩
      · split at h2
        · simp [pure, Except.pure] at h2
        · rcases except_bind_error h2 with h3 | ⟨⟨t2, p3⟩, h3, h2⟩
          · exact Or.inl (nbu_read_uint32_error h3)
          · simp [pure, Except.pure] at h2
      · rcases except_bind_error h with h3 | ⟨⟨len, p3⟩, h3, h⟩
        · exact Or.inl (nbu_read_uint32_error h3)
        · rcases except_bind_error h with h4 | ⟨p4, h4, h⟩
          · exact Or.inr (nbu_seek_cur_error h4)
          · rcases except_bind_error h with h5 | ⟨⟨items5, p5⟩, h5, h⟩
            · exact ih p4 e h5
            · simp [pure, Except.pure] at h

theorem nbu_read_vcards_error {s : NbuStream} {p : Int} {e : Err}
    (h : nbu_read_vcards s p = .error e) : e = .eof ∨ e = .seekFail := by
  unfold nbu_read_vcards at h
  simp only [bind, Except.bind] at h
  rcases except_bind_error h with h1 | ⟨⟨cnt, p1⟩, h1, h⟩
  · exact Or.inl (nbu_read_uint32_error h1)
  · exact nbu_read_vcards_loop_error s cnt p1 e h

theorem nbu_read_uint32_ok {s : NbuStream} {p : Int} (h0 : 0 ≤ p)
    (h : p.toNat + 4 ≤ s.size) :
    nbu_read_uint32 s p =
      .ok (le_value ((List.range 4).map (fun j => s.byte (p.toNat + j))),
        p + 4) := by
  unfold nbu_read_uint32
  rw [nbu_read_ok_eq h0 h]
  simp [bind, Except.bind, pure, Except.pure]

/-- C7.  For the calendar/contacts section layout: (1) given a readable
header, parsing fails with the section-unexpectedly-contains-folders error
exactly when the 32-bit folder count word is non-zero; (2) the per-item
vcard loop can only fail with a read or seek failure — a mismatch of either
heuristic validation word is never fatal; (3) when the first validation
word differs from 0x10 the iteration reads the item length immediately
after it (no second word is read), and (4) when the first word equals 0x10
a second word is consumed and the length is read after that second word,
the value of the second word not affecting the result. -/
theorem nbu_vcard_section_checks (s : NbuStream) (sp : Nat) (p : Int) (n : Nat) :
    (0 ≤ p → p.toNat + 8 ≤ s.size →
      ((nbu_read_vcard_section s sp p = .error .hasFolders) ↔
        le_value ((List.range 4).map (fun j => s.byte (p.toNat + 4 + j))) ≠ 0)) ∧
    (∀ e, nbu_read_vcards s p = .error e → e = .eof ∨ e = .seekFail) ∧
    (0 ≤ p → p.toNat + 4 ≤ s.size →
      le_value ((List.range 4).map (fun j => s.byte (p.toNat + j))) ≠ 0x10 →
      nbu_read_vcards_loop s (n + 1) p =
        (nbu_read_uint32 s (p + 4)).bind (fun v =>
          (nbu_seek_cur v.2 (v.1 : Int)).bind (fun p2 =>
            (nbu_read_vcards_loop s n p2).bind (fun r =>
              pure (⟨v.2, v.1⟩ :: r.1, r.2))))) ∧
    (0 ≤ p → p.toNat + 8 ≤ s.size →
      le_value ((List.range 4).map (fun j => s.byte (p.toNat + j))) = 0x10 →
      nbu_read_vcards_loop s (n + 1) p =
        (nbu_read_uint32 s (p + 8)).bind (fun v =>
          (nbu_seek_cur v.2 (v.1 : Int)).bind (fun p2 =>
            (nbu_read_vcards_loop s n p2).bind (fun r =>
              pure (⟨v.2, v.1⟩ :: r.1, r.2))))) := by
  refine ⟨fun h0 hsz => ?_, fun e h => nbu_read_vcards_error h,
    fun h0 hsz ht1 => ?_, fun h0 hsz ht1 => ?_⟩
  · unfold nbu_read_vcard_section
    simp only [bind, Except.bind]
    rw [nbu_read_uint32_ok h0 (by omega)]
    dsimp only
    have h40 : (0 : Int) ≤ p + 4 := by omega
    have ht4 : (p + 4).toNat = p.toNat + 4 := by omega
    rw [nbu_read_uint32_ok h40 (by rw [ht4]; omega)]
    dsimp only
    simp only [ht4]
    by_cases hnf :
        le_value ((List.range 4).map (fun j => s.byte (p.toNat + 4 + j))) ≠ 0
    · rw [if_pos hnf]
      simp [hnf]
    · rw [if_neg hnf]
      simp only [hnf, iff_false]
      intro hX
      rcases except_bind_error hX with h1 | ⟨⟨items, pv⟩, h1, hX⟩
      · rcases nbu_read_vcards_error h1 with h | h <;> cases h
      · rcases except_bind_error hX with h2 | ⟨p2, h2, hX⟩
        · cases nbu_seek_set_error h2
        · simp [pure, Except.pure] at hX
  · simp only [nbu_read_vcards_loop, bind, Except.bind]
    rw [nbu_read_uint32_ok h0 (by omega)]
    dsimp only
    rw [if_pos ht1]
    rfl
  · simp only [nbu_read_vcards_loop, bind, Except.bind]
    rw [nbu_read_uint32_ok h0 (by omega)]
    dsimp only
    rw [if_neg (not_not_intro ht1)]
    have h40 : (0 : Int) ≤ p + 4 := by omega
    have ht4 : (p + 4).toNat = p.toNat + 4 := by omega
    rw [nbu_read_uint32_ok h40 (by rw [ht4]; omega)]
    dsimp only
    have harith : p + 4 + 4 = p + 8 := by ring
    rw [harith]
    rfl

/-- Witness for nbu_vcard_section_checks: on a concrete fragment the
folder-count criterion decides the hasFolders failure, and with a first
validation word of 0x10 the iteration consumes a second word before the
length read. -/
theorem nbu_vcard_section_checks_witness :
    ((nbu_read_vcard_section nbu_stream_c7 0 0 = .error .hasFolders) ↔
      le_value ((List.range 4).map
        (fun j => nbu_stream_c7.byte ((0 : Int).toNat + 4 + j))) ≠ 0) ∧
    (nbu_read_vcards_loop nbu_stream_c7 (0 + 1) 0 =
      (nbu_read_uint32 nbu_stream_c7 ((0 : Int) + 8)).bind (fun v =>
        (nbu_seek_cur v.2 (v.1 : Int)).bind (fun p2 =>
          (nbu_read_vcards_loop nbu_stream_c7 0 p2).bind (fun r =>
            pure (⟨v.2, v.1⟩ :: r.1, r.2))))) :=
  ⟨(nbu_vcard_section_checks nbu_stream_c7 0 0 0).1 (by decide) (by decide),
   (nbu_vcard_section_checks nbu_stream_c7 0 0 0).2.2.2 (by decide) (by decide)
     (by decide)⟩

/-- C8.  For the memos section: (1) given a readable count word, the
handler runs the per-memo loop starting at the absolute offset
section_pos + 48 and finally restores the cursor to the count position
plus 4; (2) within an iteration, after the 4-byte skip the 16-bit unit
count is read, the iteration fails with the fatal memo-too-large error
exactly when that count exceeds UINT16_MAX / 2, and otherwise records an
item whose byte length is twice the unit count at the cursor after the
length field and advances the stream by that byte length. -/
theorem nbu_memos_section_checks (s : NbuStream) (ctx : nbu_ctx) (sp : Nat)
    (p : Int) (n : Nat) :
    (0 ≤ p → p.toNat + 4 ≤ s.size →
      nbu_read_memos_section s ctx sp p =
        (nbu_read_memos_loop s
            (le_value ((List.range 4).map (fun j => s.byte (p.toNat + j))))
            ((sp : Int) + 48)).bind
          (fun r => (nbu_seek_set (p + 8)).bind
            (fun q => pure ({ ctx with memos := some r.1 }, q)))) ∧
    (0 ≤ p → p.toNat + 6 ≤ s.size →
      ((s.byte (p.toNat + 4) + 256 * s.byte (p.toNat + 4 + 1)) >
          65535 / 2 →
        nbu_read_memos_loop s (n + 1) p = .error .memoTooLarge) ∧
      (¬((s.byte (p.toNat + 4) + 256 * s.byte (p.toNat + 4 + 1)) >
          65535 / 2) →
        nbu_read_memos_loop s (n + 1) p =
          (nbu_read_memos_loop s n
              (p + 6 + ((s.byte (p.toNat + 4) + 256 * s.byte (p.toNat + 4 + 1)) * 2 : Nat))).bind
            (fun r =>
              pure (⟨p + 6,
                (s.byte (p.toNat + 4) + 256 * s.byte (p.toNat + 4 + 1)) * 2⟩ ::
                  r.1, r.2)))) := by
  constructor
  · intro h0 hsz
    unfold nbu_read_memos_section
    simp only [bind, Except.bind]
    rw [nbu_read_uint32_ok h0 hsz]
    dsimp only
    have harith : p + 4 + 4 = p + 8 := by ring
    simp only [harith]
    rfl
  · intro h0 hsz
    have hs4 : nbu_seek_cur p 4 = .ok (p + 4) := by
      unfold nbu_seek_cur
      rw [if_neg (by omega)]
    have h40 : (0 : Int) ≤ p + 4 := by omega
    have ht4 : (p + 4).toNat = p.toNat + 4 := by omega
    constructor
    · intro hbig
      simp only [nbu_read_memos_loop, bind, Except.bind]
      rw [hs4]
      dsimp only
      rw [nbu_read_uint16_ok h40 (by rw [ht4]; omega)]
      dsimp only
      simp only [ht4]
      rw [if_pos hbig]
    · intro hsmall
      simp only [nbu_read_memos_loop, bind, Except.bind]
      rw [hs4]
      dsimp only
      rw [nbu_read_uint16_ok h40 (by rw [ht4]; omega)]
      dsimp only
      simp only [ht4]
      rw [if_neg hsmall]
      have hs2 : nbu_seek_cur (p + 4 + 2)
          (((s.byte (p.toNat + 4) + 256 * s.byte (p.toNat + 4 + 1)) * 2 : Nat)) =
          .ok (p + 6 +
            ((s.byte (p.toNat + 4) + 256 * s.byte (p.toNat + 4 + 1)) * 2 : Nat)) := by
        unfold nbu_seek_cur
        rw [if_neg (by omega)]
        have harith : p + 4 + 2 = p + 6 := by ring
        rw [harith]
      rw [hs2]
      dsimp only
      have harith2 : p + 4 + 2 = p + 6 := by ring
      rw [harith2]

/-- Witness for nbu_memos_section_checks: on a concrete fragment the
handler enters the loop at section_pos + 48, and an iteration whose unit
count is 0xffff fails with the memo-too-large error. -/
theorem nbu_memos_section_checks_witness :
    (nbu_read_memos_section nbu_stream_c8 nbu_ctx_empty 0 0 =
      (nbu_read_memos_loop nbu_stream_c8
          (le_value ((List.range 4).map
            (fun j => nbu_stream_c8.byte ((0 : Int).toNat + j))))
          (((0 : Nat) : Int) + 48)).bind
        (fun r => (nbu_seek_set ((0 : Int) + 8)).bind
          (fun q => pure ({ nbu_ctx_empty with memos := some r.1 }, q)))) ∧
    nbu_read_memos_loop nbu_stream_c8 (0 + 1) 2 = .error .memoTooLarge :=
  ⟨(nbu_memos_section_checks nbu_stream_c8 nbu_ctx_empty 0 0 0).1 (by decide)
      (by decide),
   ((nbu_memos_section_checks nbu_stream_c8 nbu_ctx_empty 0 2 0).2 (by decide)
      (by decide)).1 (by decide)⟩

theorem nbu_read_utf16_loop_error (s : NbuStream) :
    ∀ (n : Nat) (p : Int) (e : Err),
      nbu_read_utf16_loop s p n = .error e → e = .eof := by
  intro n
  induction n with
  | zero =>
    intro p e h
    simp [nbu_read_utf16_loop] at h
  | succ n ih =>
    intro p e h
    simp only [nbu_read_utf16_loop, bind, Except.bind] at h
    rcases except_bind_error h with h1 | ⟨⟨u, p1⟩, h1, h⟩
    · exact nbu_read_uint16_error h1
    · rcases except_bind_error h with h2 | ⟨⟨us, p2⟩, h2, h⟩
      · exact ih p1 e h2
      · simp [pure, Except.pure] at h

theorem nbu_read_utf16_n_error {s : NbuStream} {p : Int} {len : Nat} {e : Err}
    (h : nbu_read_utf16_n s p len = .error e) : e = .tooLong ∨ e = .eof := by
  unfold nbu_read_utf16_n at h
  split at h
  · cases h
    exact Or.inl rfl
  · exact Or.inr (nbu_read_utf16_loop_error s len p e h)

theorem nbu_convert_utf16_to_utf8_error {ws : List Nat} {e : Err}
    (h : nbu_convert_utf16_to_utf8 ws = .error e) : e = .tooLong := by
  unfold nbu_convert_utf16_to_utf8 at h
  dsimp only at h
  split at h
  · cases h; rfl
  · cases h

/-- C10.  The UTF-16 item export fails with the invalid-item-size error
exactly when the recorded byte length is odd; the check precedes every
seek, read and write, so a failing item writes nothing; an even byte
length proceeds to the seek, the unit read of length / 2 units, and the
transcoding. -/
theorem nbu_export_utf16_item_invalidSize (s : NbuStream) (it : nbu_item) :
    (nbu_export_utf16_item_to_fd s it = .error .invalidSize ↔
      it.len % 2 ≠ 0) ∧
    (it.len % 2 = 0 →
      nbu_export_utf16_item_to_fd s it =
        (nbu_seek_set it.pos).bind (fun p =>
          (nbu_read_utf16_n s p (it.len / 2)).bind (fun u =>
            (nbu_convert_utf16_to_utf8 u.1).bind (fun b =>
              pure (strlen_trunc b))))) := by
  constructor
  · constructor
    · intro h
      by_contra hev
      unfold nbu_export_utf16_item_to_fd at h
      rw [if_neg (fun hc => hc hev)] at h
      simp only [bind, Except.bind] at h
      rcases except_bind_error h with h1 | ⟨p1, h1, h⟩
      · cases nbu_seek_set_error h1
      · rcases except_bind_error h with h2 | ⟨⟨us, p2⟩, h2, h⟩
        · rcases nbu_read_utf16_n_error h2 with h' | h' <;> cases h'
        · rcases except_bind_error h with h3 | ⟨b3, h3, h⟩
          · cases nbu_convert_utf16_to_utf8_error h3
          · simp [pure, Except.pure] at h
    · intro hodd
      unfold nbu_export_utf16_item_to_fd
      rw [if_pos hodd]
  · intro hev
    unfold nbu_export_utf16_item_to_fd
    rw [if_neg (by omega)]
    rfl

/-- Witness for nbu_export_utf16_item_invalidSize: an item of even byte
length 2 proceeds to the seek, unit read and transcoding pipeline. -/
theorem nbu_export_utf16_item_invalidSize_witness :
    nbu_export_utf16_item_to_fd ⟨[65, 0]⟩ ⟨0, 2⟩ =
      (nbu_seek_set (0 : Int)).bind (fun p =>
        (nbu_read_utf16_n ⟨[65, 0]⟩ p (2 / 2)).bind (fun u =>
          (nbu_convert_utf16_to_utf8 u.1).bind (fun b =>
            pure (strlen_trunc b)))) :=
  (nbu_export_utf16_item_invalidSize ⟨[65, 0]⟩ ⟨0, 2⟩).2 (by decide)

/-- C6.  Failure isolation of the export engine: the export call reports
failure exactly when one of the four category exports failed, its outputs
are the concatenation of all four category outputs regardless of which
failed (every category is attempted before the aggregate result is
returned), and within the message-folder loop a folder failure is recorded
in the return value while every folder in the list still contributes its
own export outcome. -/
theorem nbu_export_isolation (s : NbuStream) (ctx : nbu_ctx)
    (fs : List nbu_folder) :
    ((nbu_export s ctx).1 = -1 ↔
      ((nbu_export_calendar s ctx).1 = -1 ∨
       (nbu_export_contacts s ctx).1 = -1 ∨
       (nbu_export_memos s ctx).1 = -1 ∨
       (nbu_export_messages s ctx).1 = -1)) ∧
    ((nbu_export s ctx).2 =
      (nbu_export_calendar s ctx).2 ++ (nbu_export_contacts s ctx).2 ++
      (nbu_export_memos s ctx).2 ++ (nbu_export_messages s ctx).2) ∧
    ((nbu_export_message_folders_loop s fs).1 = -1 ↔
      ∃ f ∈ fs, (nbu_export_message_folder s f).1 = -1) ∧
    ((nbu_export_message_folders_loop s fs).2 =
      (fs.map (fun f => (nbu_export_message_folder s f).2)).flatten) := by
  refine ⟨?_, ?_, ?_, ?_⟩
  · unfold nbu_export
    dsimp only
    split
    · simp_all
    · simp_all
  · unfold nbu_export
    simp [List.append_assoc]
  · induction fs with
    | nil => simp [nbu_export_message_folders_loop]
    | cons f rest ih =>
      simp only [nbu_export_message_folders_loop]
      constructor
      · intro h
        split at h
        · exact ⟨f, by simp, by assumption⟩
        · obtain ⟨g, hg, hgf⟩ := ih.mp h
          exact ⟨g, by simp [hg], hgf⟩
      · rintro ⟨g, hg, hgf⟩
        rcases List.mem_cons.mp hg with rfl | hmem
        · rw [if_pos hgf]
        · split
          · rfl
          · exact ih.mpr ⟨g, hmem, hgf⟩
  · induction fs with
    | nil => simp [nbu_export_message_folders_loop]
    | cons f rest ih =>
      simp only [nbu_export_message_folders_loop, List.map_cons,
        List.flatten_cons]
      rw [ih]

/-- C3, counterexample.  Export of a context holding a non-empty bookmarks
FolderList and a non-empty MMS FolderList creates no output file at all
and reports success: nbu_export only exports calendar, contacts, memos and
messages. -/
theorem nbu_export_ignores_bookmarks_and_mms :
    nbu_ctx_c3.bookmarks ≠ some [] ∧ nbu_ctx_c3.bookmarks ≠ none ∧
    nbu_ctx_c3.mmses ≠ some [] ∧ nbu_ctx_c3.mmses ≠ none ∧
    nbu_export ⟨[7]⟩ nbu_ctx_c3 = (0, []) := by
  refine ⟨by decide, by decide, by decide, by decide, by decide⟩

/-- C3, amended.  The export call writes the calendar, contacts, memos and
message collections only; the bookmarks and MMS FolderLists are parsed but
never exported — the result of nbu_export does not depend on them at
all. -/
theorem nbu_export_independent_of_bookmarks_mms (s : NbuStream)
    (ctx : nbu_ctx) (b m : Option (List nbu_folder)) :
    nbu_export s { ctx with bookmarks := b, mmses := m } = nbu_export s ctx :=
  rfl

end NbuExport
